import Mathlib

/-!
GoWSL: command execution and I/O plumbing (`exec.go`)

A shallow embedding of `exec.go`: the bounded output buffer `prefixSuffixSaver`
and the `Cmd` life cycle (`Start`, `Wait`, `Run`, `Output`, `CombinedOutput`, the
pipe accessors and the descriptor resolvers).

Conventions of the embedding.

* A Go `[]byte` is a `Slice`: either the nil slice or a non-nil slice with its
  contents. Go's `append` of no element to a nil slice yields the nil slice.
* Go's `int` is modelled by `Int`: the `int` values of `exec.go` are lengths of
  slices, offsets into them and the capacity `N`, and for `N ≥ 0` none of the
  operations on them leaves the range of `int`. The `skipped` counter of the
  saver is an `int64` and counts every byte that was dropped: each addition to
  it wraps round as Go's `int64` addition does (`wrapInt64`).
* A run-time panic (slice bounds out of range) and a loop that does not come to
  an end within the given fuel are results of their own, of type `Fault`.
* What the collaborators of `exec.go` answer (the registration check, the
  context, `os.Pipe`, `os.Open`, `fileType`, `startProcess`, `Process.Wait`, the
  copy goroutines) is read from an `Env`; what the code does to the outside
  (descriptors opened and closed, the launch, goroutines spawned) is recorded,
  in order, in the log of a `World`.
-/

namespace GoWSL

/-- One byte. -/
abbrev Byte := UInt8

/-- Abnormal ends of a computation: a run-time panic for a slice expression
whose bounds are out of range, a loop still running when the fuel is spent, and
the panic of `Command` on a nil context. -/
inductive Fault where
  | sliceBounds
  | loopFuel
  | nilContext
  deriving DecidableEq, Repr

deriving instance DecidableEq for Except

/-- A Go `[]byte`: `nil` is the nil slice, `mk l` a non-nil slice holding `l`. -/
inductive Slice where
  | nil
  | mk (data : List Byte)
  deriving DecidableEq, Repr

namespace Slice

/-- Contents of a slice (none for the nil slice). -/
def data : Slice → List Byte
  | nil => []
  | mk l => l

/-- Go `len(s)`. -/
def len (s : Slice) : Int := (s.data.length : Int)

/-- Go `s == nil`. -/
def isNil : Slice → Bool
  | nil => true
  | mk _ => false

/-- Go `append(s, xs...)`: appending nothing to the nil slice gives the nil slice. -/
def append : Slice → List Byte → Slice
  | nil, [] => nil
  | nil, x :: xs => mk (x :: xs)
  | mk l, xs => mk (l ++ xs)

/-- In-place store of `src` at offset `off` (what Go `copy(s[off:], src)` does to `s`);
the slice keeps its length and its nil-ness. -/
def store : Slice → Nat → List Byte → Slice
  | nil, _, _ => nil
  | mk l, off, src =>
    mk (l.take off ++ src.take (l.length - off) ++ l.drop (off + min (l.length - off) src.length))

end Slice

/-- Go `p[lo:]`: panics unless `0 ≤ lo ≤ len(p)`. -/
def sliceFrom (p : List Byte) (lo : Int) : Except Fault (List Byte) :=
  if 0 ≤ lo ∧ lo ≤ (p.length : Int) then .ok (p.drop lo.toNat) else .error .sliceBounds

/-- Go `p[:hi]`: panics unless `0 ≤ hi ≤ len(p)`. -/
def sliceTo (p : List Byte) (hi : Int) : Except Fault (List Byte) :=
  if 0 ≤ hi ∧ hi ≤ (p.length : Int) then .ok (p.take hi.toNat) else .error .sliceBounds

/-- Source `minInt`. -/
def minInt (a b : Int) : Int :=
  if a < b then a else b

/-- The value of an integer as an `int64`: Go's signed 64-bit arithmetic wraps round
modulo `2^64` into the range from `-2^63` to `2^63 - 1`. -/
def wrapInt64 (x : Int) : Int :=
  (x + 9223372036854775808) % 18446744073709551616 - 9223372036854775808

/-- Source `prefixSuffixSaver`: retains the first `N` and the last `N` bytes written.
The field `prefix` of the source is `prefix_` here. -/
structure prefixSuffixSaver where
  N : Int
  prefix_ : Slice := Slice.nil
  suffix : Slice := Slice.nil
  suffixOff : Int := 0
  skipped : Int := 0
  deriving DecidableEq, Repr

/-- Source `prefixSuffixSaver.fill`, for the destination `dst` (the value of `*dst`):
returns the new value of `*dst` and the un-appended rest of `p`. -/
def prefixSuffixSaver.fill (w : prefixSuffixSaver) (dst : Slice) (p : List Byte) :
    Except Fault (Slice × List Byte) :=
  let remain := w.N - dst.len
  if remain > 0 then do
    let add := minInt (p.length : Int) remain
    let head ← sliceTo p add
    let rest ← sliceFrom p add
    pure (dst.append head, rest)
  else
    pure (dst, p)

/-- The ring loop of `Write` (`for len(p) > 0 { ... }`), with `fuel` iterations allowed. -/
def prefixSuffixSaver.ring : Nat → prefixSuffixSaver → List Byte → Except Fault prefixSuffixSaver
  | fuel, w, p =>
    if p.length > 0 then
      match fuel with
      | 0 => .error .loopFuel
      | fuel + 1 => do
        let window ← sliceFrom w.suffix.data w.suffixOff
        let n : Nat := min window.length p.length
        let p' ← sliceFrom p (n : Int)
        let off := w.suffixOff + (n : Int)
        let w' : prefixSuffixSaver :=
          { w with
            suffix := w.suffix.store w.suffixOff.toNat p
            skipped := wrapInt64 (w.skipped + (n : Int))
            suffixOff := if off = w.N then 0 else off }
        prefixSuffixSaver.ring fuel w' p'
    else
      .ok w

/-- Source `prefixSuffixSaver.Write`: the saver after the call, and the returned count
(the returned error is always nil). -/
def prefixSuffixSaver.Write (fuel : Nat) (w : prefixSuffixSaver) (p : List Byte) :
    Except Fault (prefixSuffixSaver × Int) := do
  let lenp : Int := (p.length : Int)
  let (pre, p1) ← w.fill w.prefix_ p
  let w1 := { w with prefix_ := pre }
  let overage := (p1.length : Int) - w1.N
  let (p2, w2) ←
    if overage > 0 then do
      let q ← sliceFrom p1 overage
      pure (q, { w1 with skipped := wrapInt64 (w1.skipped + overage) })
    else
      (pure (p1, w1) : Except Fault (List Byte × prefixSuffixSaver))
  let (suf, p3) ← w2.fill w2.suffix p2
  let w3 := { w2 with suffix := suf }
  let w4 ← prefixSuffixSaver.ring fuel w3 p3
  pure (w4, lenp)

/-- Bytes of a string of ASCII characters. -/
def strBytes (s : String) : List Byte :=
  s.toList.map (fun c => c.toNat.toUInt8)

/-- Bytes of the decimal representation of an integer (Go `strconv.FormatInt(i, 10)`). -/
def formatInt (i : Int) : List Byte :=
  strBytes (toString i)

/-- The omission marker written by `Bytes` for `k` skipped bytes. -/
def marker (k : Int) : List Byte :=
  strBytes "\n... omitting " ++ formatInt k ++ strBytes " bytes ...\n"

/-- Source `prefixSuffixSaver.Bytes`. -/
def prefixSuffixSaver.Bytes (w : prefixSuffixSaver) : Except Fault Slice :=
  if w.suffix.isNil then
    .ok w.prefix_
  else if w.skipped = 0 then
    .ok (w.prefix_.append w.suffix.data)
  else do
    let tail ← sliceFrom w.suffix.data w.suffixOff
    let head ← sliceTo w.suffix.data w.suffixOff
    pure (Slice.mk (w.prefix_.data ++ marker w.skipped ++ tail ++ head))

/-- A sequence of `Write` calls, one per chunk, in order. -/
def prefixSuffixSaver.writes (fuel : Nat) :
    prefixSuffixSaver → List (List Byte) → Except Fault prefixSuffixSaver
  | w, [] => .ok w
  | w, p :: ps => do
    let (w', _) ← w.Write fuel p
    prefixSuffixSaver.writes fuel w' ps

/-- Contents of `Bytes()` after the chunks `ps` were written to a fresh saver of capacity `C`. -/
def savedBytes (fuel : Nat) (C : Int) (ps : List (List Byte)) : Except Fault (List Byte) := do
  let w ← prefixSuffixSaver.writes fuel { N := C } ps
  let b ← w.Bytes
  pure b.data

/-- Chronological reading of a ring `s` whose next write position is `off`. -/
def rot (s : List Byte) (off : Nat) : List Byte :=
  s.drop off ++ s.take off

/-- The last `n` elements of a list. -/
def lastN (n : Nat) (l : List Byte) : List Byte :=
  l.drop (l.length - n)

/-- The suffix is a full ring of `n` bytes whose chronological reading is `chron`. -/
def RingState (n : Nat) (w : prefixSuffixSaver) (chron : List Byte) : Prop :=
  ∃ s, w.suffix = .mk s ∧ s.length = n ∧ 0 ≤ w.suffixOff ∧ w.suffixOff < (n : Int) ∧
    rot s w.suffixOff.toNat = chron

/-- State of a saver of capacity `n` to which the bytes `a` were written. -/
structure SaverInv (n : Nat) (a : List Byte) (w : prefixSuffixSaver) : Prop where
  hN : w.N = (n : Int)
  hpre : w.prefix_.data = a.take n
  hskip : w.skipped = wrapInt64 ((a.length - n - n : Nat) : Int)
  hsuf :
    (0 < n ∧ a.length < n + n ∧ w.suffix.data = a.drop n ∧ w.suffixOff = 0 ∧
        (w.suffix.isNil = true ↔ a.length ≤ n)) ∨
      (0 < n ∧ n + n ≤ a.length ∧ RingState n w (lastN n a) ∧
        (a.length = n + n → w.suffixOff = 0)) ∨
      (n = 0 ∧ w.suffix = Slice.nil ∧ w.suffixOff = 0)

/-! ## The command: data model -/

/-- An `*os.File`, identified by its descriptor. -/
abbrev Fd := Nat

/-- A `context.Context`, identified by a number. -/
abbrev Ctx := Nat

/-- Source `Distro` (used by `exec.go`, declared in another file): the name of the distro. -/
structure Distro where
  Name : String
  deriving DecidableEq, Repr

/-- An `*os.Process`: the handle of the launched process. -/
structure Process where
  Pid : Nat
  deriving DecidableEq, Repr

/-- An `*os.ProcessState`: the status of a process that has exited. -/
structure ProcessState where
  pid : Nat
  exitCode : Nat
  deriving DecidableEq, Repr

/-- Go `(*os.ProcessState).Success`: the exit status is zero. -/
def ProcessState.Success (s : ProcessState) : Bool :=
  s.exitCode == 0

/-- Go `(*os.ProcessState).ExitCode`. -/
def ProcessState.ExitCode (s : ProcessState) : Nat :=
  s.exitCode

/-- The non-nil `error` values met by `exec.go`: `errors.New(msg)`, an
`*exec.ExitError` with its two fields, and an error made by a collaborator
(the context, the operating system, the launcher, a copy). -/
inductive Error where
  | errorsNew (msg : String)
  | exitError (ProcessState : ProcessState) (Stderr : Slice)
  | external (code : Nat)
  deriving DecidableEq, Repr

/-- A non-nil `io.Reader` or `io.Writer` held by `Stdin`, `Stdout` or `Stderr`:
an `*os.File`, a `*bytes.Buffer`, a `*prefixSuffixSaver`, another value of a
comparable dynamic type (a pointer, say), or a value of a dynamic type that Go
cannot compare (a func, a map, a struct holding a slice). -/
inductive Stream where
  | file (f : Fd)
  | buffer (id : Nat)
  | saver (id : Nat)
  | other (id : Nat)
  | uncomparable (id : Nat)
  deriving DecidableEq, Repr

/-- Whether Go can compare two values of the dynamic type of the stream. -/
def Stream.comparable : Stream → Bool
  | .uncomparable _ => false
  | _ => true

/-- An `io.Closer` kept in a closer list: an `*os.File`, or the `*closeOnce`
that `StdinPipe` wraps around the write end of its pipe. -/
inductive Closer where
  | file (f : Fd)
  | closeOnce (f : Fd)
  deriving DecidableEq, Repr

/-- An entry of `goroutine`: the copy from a reader into the write end `pw` of a
pipe (made by `readerDescriptor`), or the copy from the read end `pr` of a pipe
into a writer (made by `writerDescriptor`). -/
inductive CopyTask where
  | toProcess (r : Stream) (pw : Fd)
  | fromProcess (w : Stream) (pr : Fd)
  deriving DecidableEq, Repr

/-- What the code does to the outside, in the order in which it does it. -/
inductive Event where
  | openDevNull (f : Fd) (forWriting : Bool)
  | pipe (pr pw : Fd)
  | close (c : Closer)
  | startProcess (distro : Distro) (command : String) (useCWD : Bool)
      (stdinR stdoutW stderrW : Option Fd)
  | goCopy (t : CopyTask)
  | goWatcher (ctx : Ctx)
  | processWait (p : Process)
  | closeWaitDone
  | kill (p : Process)
  deriving DecidableEq, Repr

/-- The outside of the command: the next unused descriptor, the next unused
object identity, and the log of events so far. -/
structure World where
  nextFd : Nat := 0
  nextObj : Nat := 0
  log : List Event := []
  deriving DecidableEq, Repr

/-- Modelled from the spec: the kinds of file told apart by `fileType`, a helper
declared outside the translated sources; `fileTypePipe` is the native pipe. -/
inductive FileType where
  | fileTypePipe
  | fileTypeOther (code : Nat)
  deriving DecidableEq, Repr

/-- Answers of the collaborators of `exec.go`.

* `isRegistered`: the pair returned by `c.distro.IsRegistered()`.
* `ctxDone`: whether `c.ctx.Done()` is ready when `Start` polls it; `ctxErr`: `c.ctx.Err()`
  of a context that is done.
* `fileType f`: the pair returned by `fileType(f)`.
* `osPipe k`, `osOpen k`: the error of `os.Pipe()` and of opening the null device
  when `k` descriptors were handed out before (`none`: the call succeeds).
* `startProcess`: the handle or the error returned by `c.startProcess()`.
* `processWait`: the state or the error returned by `c.Process.Wait()`.
* `watcherFires`: the watcher goroutine kills the process and stores the
  cancellation cause while `Wait` is blocked on the process.
* `errch k`: the `k`-th value that `Wait` receives from `c.errch`.
* `copied t`: the chunks that copy task `t` has written to its writer when the
  contents of that writer are read. -/
structure Env where
  isRegistered : Bool × Option Error
  ctxDone : Bool
  ctxErr : Error
  fileType : Fd → FileType × Option Error
  osPipe : Nat → Option Error
  osOpen : Nat → Option Error
  startProcess : Except Error Process
  processWait : Except Error ProcessState
  watcherFires : Bool
  errch : Nat → Option Error
  copied : CopyTask → List (List Byte)

/-- Source `Cmd`. A nil pointer, interface or channel is `none`; `errch` holds the
capacity of the channel and `waitDone` whether the channel is closed. -/
structure Cmd where
  Stdin : Option Stream := none
  Stdout : Option Stream := none
  Stderr : Option Stream := none
  UseCWD : Bool := false
  distro : Distro
  command : String
  closeAfterStart : List Closer := []
  closeAfterWait : List Closer := []
  goroutine : List CopyTask := []
  errch : Option Nat := none
  stdinR : Option Fd := none
  stdoutW : Option Fd := none
  stderrW : Option Fd := none
  Process : Option Process := none
  finished : Bool := false
  ProcessState : Option ProcessState := none
  ctx : Option Ctx := none
  ctxErr : Option Error := none
  waitDone : Option Bool := none
  deriving DecidableEq, Repr

/-- The command and the world after a call, the value returned and the error returned. -/
structure Outcome (α : Type) where
  c : Cmd
  w : World
  val : α
  err : Option Error

/-- Source `Distro.Command`: panics on a nil context. -/
def Distro.Command (d : Distro) (ctx : Option Ctx) (cmd : String) : Except Fault Cmd :=
  match ctx with
  | none => .error .nilContext
  | some x => .ok { distro := d, command := cmd, ctx := some x }

/-! ## The command: operations -/

/-- Go `os.Pipe()`: on success two fresh descriptors, the read end and the write end. -/
def osPipe (env : Env) (w : World) : World × Except Error (Fd × Fd) :=
  match env.osPipe w.nextFd with
  | some err => (w, .error err)
  | none =>
    ({ w with nextFd := w.nextFd + 2, log := w.log ++ [Event.pipe w.nextFd (w.nextFd + 1)] },
      .ok (w.nextFd, w.nextFd + 1))

/-- Go `os.Open(os.DevNull)` and `os.OpenFile(os.DevNull, os.O_WRONLY, 0)`. -/
def osOpenDevNull (env : Env) (w : World) (forWriting : Bool) : World × Except Error Fd :=
  match env.osOpen w.nextFd with
  | some err => (w, .error err)
  | none =>
    ({ w with nextFd := w.nextFd + 1, log := w.log ++ [Event.openDevNull w.nextFd forWriting] },
      .ok w.nextFd)

/-- Source `interfaceEqual`: `a == b` on interface values, where the panic of Go
on two values of one uncomparable dynamic type is recovered and gives `false`. -/
def interfaceEqual (a b : Option Stream) : Bool :=
  match a, b with
  | none, none => true
  | some x, some y => if x.comparable && y.comparable then x == y else false
  | _, _ => false

/-- Source `Cmd.closeDescriptors`: calls `Close` on each closer, in order. -/
def Cmd.closeDescriptors (closers : List Closer) (w : World) : World :=
  { w with log := w.log ++ closers.map Event.close }

/-- The test of both resolvers `if f, ok := r.(*os.File); ok { ft, err := fileType(f);
if err == nil && ft == fileTypePipe { return f, nil } }`: the file to pass through. -/
def pipeFile (env : Env) (s : Stream) : Option Fd :=
  match s with
  | .file f =>
    match env.fileType f with
    | (.fileTypePipe, none) => some f
    | _ => none
  | _ => none

/-- Source `Cmd.readerDescriptor`. -/
def Cmd.readerDescriptor (env : Env) (c : Cmd) (w : World) (r : Option Stream) :
    Outcome (Option Fd) :=
  match r with
  | none =>
    match osOpenDevNull env w false with
    | (w1, .error err) => { c := c, w := w1, val := none, err := some err }
    | (w1, .ok f) =>
      { c := { c with closeAfterStart := c.closeAfterStart ++ [Closer.file f] },
        w := w1, val := some f, err := none }
  | some r =>
    match pipeFile env r with
    | some f => { c := c, w := w, val := some f, err := none }
    | none =>
      match osPipe env w with
      | (w1, .error err) => { c := c, w := w1, val := none, err := some err }
      | (w1, .ok (pr, pw)) =>
        { c := { c with
            closeAfterStart := c.closeAfterStart ++ [Closer.file pr]
            closeAfterWait := c.closeAfterWait ++ [Closer.file pw]
            goroutine := c.goroutine ++ [CopyTask.toProcess r pw] },
          w := w1, val := some pr, err := none }

/-- Source `Cmd.writerDescriptor`. -/
def Cmd.writerDescriptor (env : Env) (c : Cmd) (w : World) (wr : Option Stream) :
    Outcome (Option Fd) :=
  match wr with
  | none =>
    match osOpenDevNull env w true with
    | (w1, .error err) => { c := c, w := w1, val := none, err := some err }
    | (w1, .ok f) =>
      { c := { c with closeAfterStart := c.closeAfterStart ++ [Closer.file f] },
        w := w1, val := some f, err := none }
  | some wr =>
    match pipeFile env wr with
    | some f => { c := c, w := w, val := some f, err := none }
    | none =>
      match osPipe env w with
      | (w1, .error err) => { c := c, w := w1, val := none, err := some err }
      | (w1, .ok (pr, pw)) =>
        { c := { c with
            closeAfterStart := c.closeAfterStart ++ [Closer.file pw]
            closeAfterWait := c.closeAfterWait ++ [Closer.file pr]
            goroutine := c.goroutine ++ [CopyTask.fromProcess wr pr] },
          w := w1, val := some pw, err := none }

/-- Source `Cmd.stdin`. -/
def Cmd.stdin (env : Env) (c : Cmd) (w : World) : Outcome Unit :=
  let r := c.readerDescriptor env w c.Stdin
  match r.err with
  | none => { c := { r.c with stdinR := r.val }, w := r.w, val := (), err := none }
  | some e => { c := r.c, w := r.w, val := (), err := some e }

/-- Source `Cmd.stdout`. -/
def Cmd.stdout (env : Env) (c : Cmd) (w : World) : Outcome Unit :=
  let r := c.writerDescriptor env w c.Stdout
  match r.err with
  | none => { c := { r.c with stdoutW := r.val }, w := r.w, val := (), err := none }
  | some e => { c := r.c, w := r.w, val := (), err := some e }

/-- Source `Cmd.stderr`. -/
def Cmd.stderr (env : Env) (c : Cmd) (w : World) : Outcome Unit :=
  if c.Stderr.isSome && interfaceEqual c.Stdout c.Stderr then
    { c := { c with stderrW := c.stdoutW }, w := w, val := (), err := none }
  else
    let r := c.writerDescriptor env w c.Stderr
    match r.err with
    | none => { c := { r.c with stderrW := r.val }, w := r.w, val := (), err := none }
    | some e => { c := r.c, w := r.w, val := (), err := some e }

/-- The loop of `Start` over `[]F{(*Cmd).stdin, (*Cmd).stdout, (*Cmd).stderr}`: the first
set-up that fails closes the descriptors of both lists and ends the loop with its error. -/
def Cmd.setupFds (env : Env) :
    List (Env → Cmd → World → Outcome Unit) → Cmd → World → Outcome Unit
  | [], c, w => { c := c, w := w, val := (), err := none }
  | setupFd :: rest, c, w =>
    let r := setupFd env c w
    match r.err with
    | some e =>
      { c := r.c
        w := Cmd.closeDescriptors r.c.closeAfterWait (Cmd.closeDescriptors r.c.closeAfterStart r.w)
        val := (), err := some e }
    | none => Cmd.setupFds env rest r.c r.w

/-- Stream wiring: the three set-ups of `Start`, in the order of the source. -/
def Cmd.wire (env : Env) (c : Cmd) (w : World) : Outcome Unit :=
  Cmd.setupFds env [Cmd.stdin, Cmd.stdout, Cmd.stderr] c w

/-- Source `Cmd.Start`. -/
def Cmd.Start (env : Env) (c : Cmd) (w : World) : Outcome Unit :=
  match env.isRegistered with
  | (_, some err) => { c := c, w := w, val := (), err := some err }
  | (false, none) =>
    { c := c, w := w, val := (), err := some (Error.errorsNew "wsl: distro is not registered") }
  | (true, none) =>
    if c.Process.isSome then
      { c := c, w := w, val := (), err := some (Error.errorsNew "wsl: already started") }
    else if c.ctx.isSome && env.ctxDone then
      { c := c
        w := Cmd.closeDescriptors c.closeAfterWait (Cmd.closeDescriptors c.closeAfterStart w)
        val := (), err := some env.ctxErr }
    else
      let r := Cmd.wire env c w
      match r.err with
      | some e => { c := r.c, w := r.w, val := (), err := some e }
      | none =>
        let c1 := r.c
        let w1 : World :=
          { r.w with
            log := r.w.log ++
              [Event.startProcess c1.distro c1.command c1.UseCWD c1.stdinR c1.stdoutW c1.stderrW] }
        match env.startProcess with
        | .error e =>
          { c := { c1 with Process := none }
            w := Cmd.closeDescriptors c1.closeAfterWait
              (Cmd.closeDescriptors c1.closeAfterStart w1)
            val := (), err := some e }
        | .ok p =>
          let c2 := { c1 with Process := some p }
          let w2 := Cmd.closeDescriptors c2.closeAfterStart w1
          let c3 :=
            if c2.goroutine.length > 0 then { c2 with errch := some c2.goroutine.length } else c2
          let w3 : World :=
            if c2.goroutine.length > 0 then
              { w2 with log := w2.log ++ c2.goroutine.map Event.goCopy }
            else w2
          match c3.ctx with
          | some x =>
            { c := { c3 with waitDone := some false }
              w := { w3 with log := w3.log ++ [Event.goWatcher x] }
              val := (), err := none }
          | none => { c := c3, w := w3, val := (), err := none }

/-- The body of the watcher goroutine of `Start` when its context is done:
`c.Process.Kill(); c.ctxErr = c.ctx.Err()`. -/
def Cmd.watcher (env : Env) (c : Cmd) (w : World) : Cmd × World :=
  match c.Process with
  | some p => ({ c with ctxErr := some env.ctxErr }, { w with log := w.log ++ [Event.kill p] })
  | none => ({ c with ctxErr := some env.ctxErr }, w)

/-- The loop of `Wait` over `c.goroutine`: one value is received from `c.errch` per
entry, and the first non-nil one is kept. `k` counts the values received so far. -/
def Cmd.drain (env : Env) : List CopyTask → Nat → Option Error → Option Error
  | [], _, copyError => copyError
  | _ :: rest, k, copyError =>
    let err := env.errch k
    Cmd.drain env rest (k + 1) (if err.isSome && copyError.isNone then err else copyError)

/-- Source `Cmd.Wait`. -/
def Cmd.Wait (env : Env) (c : Cmd) (w : World) : Outcome Unit :=
  match c.Process with
  | none => { c := c, w := w, val := (), err := some (Error.errorsNew "wsl: not started") }
  | some p =>
    if c.finished then
      { c := c, w := w, val := (), err := some (Error.errorsNew "wsl: Wait was already called") }
    else
      let c1 := { c with finished := true }
      let w1 : World := { w with log := w.log ++ [Event.processWait p] }
      -- the watcher may fire while `Process.Wait` blocks
      let (c2, w2) :=
        if c1.waitDone.isSome && env.watcherFires then Cmd.watcher env c1 w1 else (c1, w1)
      let (c3, w3) :=
        match c2.waitDone with
        | some _ =>
          ({ c2 with waitDone := some true }, { w2 with log := w2.log ++ [Event.closeWaitDone] })
        | none => (c2, w2)
      let state : Option GoWSL.ProcessState :=
        match env.processWait with
        | .ok st => some st
        | .error _ => none
      let c4 := { c3 with ProcessState := state }
      let copyError := Cmd.drain env c4.goroutine 0 none
      let w4 := Cmd.closeDescriptors c4.closeAfterWait w3
      match c4.ctxErr with
      | some e => { c := c4, w := w4, val := (), err := some e }
      | none =>
        match env.processWait with
        | .error e => { c := c4, w := w4, val := (), err := some e }
        | .ok st =>
          if !st.Success then
            { c := c4, w := w4, val := (), err := some (Error.exitError st Slice.nil) }
          else
            { c := c4, w := w4, val := (), err := copyError }

/-- Source `Cmd.Run`; `envS` answers during `Start` and `envW` during `Wait`. -/
def Cmd.Run (envS envW : Env) (c : Cmd) (w : World) : Outcome Unit :=
  let r := c.Start envS w
  match r.err with
  | some e => { c := r.c, w := r.w, val := (), err := some e }
  | none => r.c.Wait envW r.w

/-- The chunks written to the writer `s` by the copy tasks that were started for it. -/
def written (env : Env) (w : World) (s : Stream) : List (List Byte) :=
  (w.log.filterMap (fun e =>
    match e with
    | Event.goCopy (CopyTask.fromProcess s' pr) =>
      if s' = s then some (env.copied (CopyTask.fromProcess s' pr)) else none
    | _ => none)).flatten

/-- Go `(*bytes.Buffer).Bytes` of a buffer to which the chunks were written, as far as
its contents go: an empty result is given as the nil slice, whether or not the buffer
has allocated storage by then. -/
def bufferBytes (chunks : List (List Byte)) : Slice :=
  Slice.nil.append chunks.flatten

/-- Source `Cmd.Output`. The stdout buffer and the stderr saver are fresh objects;
`fuel` bounds the ring loop of the saver. -/
def Cmd.Output (fuel : Nat) (envS envW : Env) (c : Cmd) (w : World) :
    Except Fault (Outcome Slice) :=
  if c.Stdout.isSome then
    .ok { c := c, w := w, val := Slice.nil, err := some (Error.errorsNew "wsl: Stdout already set") }
  else
    let stdout := Stream.buffer w.nextObj
    let w1 : World := { w with nextObj := w.nextObj + 1 }
    let c1 := { c with Stdout := some stdout }
    let captureErr := c1.Stderr.isNone
    let saver := Stream.saver w1.nextObj
    let c2 := if captureErr then { c1 with Stderr := some saver } else c1
    let w2 : World := if captureErr then { w1 with nextObj := w1.nextObj + 1 } else w1
    let r := c2.Run envS envW w2
    match r.err, captureErr with
    | some (Error.exitError st _), true => do
      let sv ← prefixSuffixSaver.writes fuel { N := 32 <<< 10 } (written envW r.w saver)
      let b ← sv.Bytes
      pure { c := r.c, w := r.w, val := bufferBytes (written envW r.w stdout),
             err := some (Error.exitError st b) }
    | err, _ =>
      .ok { c := r.c, w := r.w, val := bufferBytes (written envW r.w stdout), err := err }

/-- Source `Cmd.CombinedOutput`. -/
def Cmd.CombinedOutput (envS envW : Env) (c : Cmd) (w : World) : Outcome Slice :=
  if c.Stdout.isSome then
    { c := c, w := w, val := Slice.nil, err := some (Error.errorsNew "wsl: Stdout already set") }
  else if c.Stderr.isSome then
    { c := c, w := w, val := Slice.nil, err := some (Error.errorsNew "wsl: Stderr already set") }
  else
    let b := Stream.buffer w.nextObj
    let w1 : World := { w with nextObj := w.nextObj + 1 }
    let c1 := { c with Stdout := some b, Stderr := some b }
    let r := c1.Run envS envW w1
    { c := r.c, w := r.w, val := bufferBytes (written envW r.w b), err := r.err }

/-- Source `Cmd.StdinPipe`: the returned `io.WriteCloser` is the `*closeOnce`
around the write end. -/
def Cmd.StdinPipe (env : Env) (c : Cmd) (w : World) : Outcome (Option Closer) :=
  if c.Stdin.isSome then
    { c := c, w := w, val := none, err := some (Error.errorsNew "wsl: Stdin already set") }
  else if c.Process.isSome then
    { c := c, w := w, val := none,
      err := some (Error.errorsNew "wsl: StdinPipe after process started") }
  else
    match osPipe env w with
    | (w1, .error err) => { c := c, w := w1, val := none, err := some err }
    | (w1, .ok (pr, pw)) =>
      { c := { c with
          Stdin := some (Stream.file pr)
          closeAfterStart := c.closeAfterStart ++ [Closer.file pr]
          closeAfterWait := c.closeAfterWait ++ [Closer.closeOnce pw] },
        w := w1, val := some (Closer.closeOnce pw), err := none }

/-- Source `Cmd.StdoutPipe`: the returned `io.ReadCloser` is the read end. -/
def Cmd.StdoutPipe (env : Env) (c : Cmd) (w : World) : Outcome (Option Closer) :=
  if c.Stdout.isSome then
    { c := c, w := w, val := none, err := some (Error.errorsNew "wsl: Stdout already set") }
  else if c.Process.isSome then
    { c := c, w := w, val := none,
      err := some (Error.errorsNew "wsl: StdoutPipe after process started") }
  else
    match osPipe env w with
    | (w1, .error err) => { c := c, w := w1, val := none, err := some err }
    | (w1, .ok (pr, pw)) =>
      { c := { c with
          Stdout := some (Stream.file pw)
          closeAfterStart := c.closeAfterStart ++ [Closer.file pw]
          closeAfterWait := c.closeAfterWait ++ [Closer.file pr] },
        w := w1, val := some (Closer.file pr), err := none }

/-- Source `Cmd.StderrPipe`: the returned `io.ReadCloser` is the read end. -/
def Cmd.StderrPipe (env : Env) (c : Cmd) (w : World) : Outcome (Option Closer) :=
  if c.Stderr.isSome then
    { c := c, w := w, val := none, err := some (Error.errorsNew "wsl: Stderr already set") }
  else if c.Process.isSome then
    { c := c, w := w, val := none,
      err := some (Error.errorsNew "wsl: StderrPipe after process started") }
  else
    match osPipe env w with
    | (w1, .error err) => { c := c, w := w1, val := none, err := some err }
    | (w1, .ok (pr, pw)) =>
      { c := { c with
          Stderr := some (Stream.file pw)
          closeAfterStart := c.closeAfterStart ++ [Closer.file pw]
          closeAfterWait := c.closeAfterWait ++ [Closer.file pr] },
        w := w1, val := some (Closer.file pr), err := none }

/-- Source `closeOnce.Close` and `(*os.File).Close` as seen from the log: a closer
counts as closed in a world when `Close` was called on it. -/
def World.closed (w : World) (x : Closer) : Prop :=
  Event.close x ∈ w.log

instance (w : World) (x : Closer) : Decidable (w.closed x) := by
  unfold World.closed
  infer_instance

/-! ## Notions used to state the properties of the command -/

/-- The first non-nil error of a list of received values, if there is one. -/
def firstNonNil : List (Option Error) → Option Error
  | [] => none
  | some e :: _ => some e
  | none :: rest => firstNonNil rest

/-- The values that `Wait` receives from `c.errch` for `n` copy tasks, in order of arrival. -/
def received (env : Env) (n : Nat) : List (Option Error) :=
  (List.range n).map env.errch

/-- An environment in which the distro is registered, the context is not done, no
stream is a native pipe, every call of the operating system succeeds, the process has
identifier 100 and exits with status 0, and every copy ends without error. -/
def Env.calm : Env where
  isRegistered := (true, none)
  ctxDone := false
  ctxErr := Error.external 1
  fileType := fun _ => (FileType.fileTypeOther 0, none)
  osPipe := fun _ => none
  osOpen := fun _ => none
  startProcess := .ok { Pid := 100 }
  processWait := .ok { pid := 100, exitCode := 0 }
  watcherFires := false
  errch := fun _ => none
  copied := fun _ => []

/-- A command as `Command` returns it: distro `"Ubuntu"`, command `"exit 42"`, context 7. -/
def Cmd.sample : Cmd :=
  { distro := { Name := "Ubuntu" }, command := "exit 42", ctx := some 7 }

/-- The calm environment, with a context that is already done. -/
def Env.cancelled : Env :=
  { Env.calm with ctxDone := true }

/-- The calm environment, with a distro that is not registered. -/
def Env.unregistered : Env :=
  { Env.calm with isRegistered := (false, none) }

/-- The descriptor behind a closer. -/
def Closer.fd : Closer → Nat
  | .file f => f
  | .closeOnce f => f

/-- Whether an event is a call of `Close`. -/
def Event.isClose : Event → Bool
  | .close _ => true
  | _ => false

/-- The closer lists of a command as its operations build them: every tracked
descriptor was handed out by the world, and no closer is in both lists. -/
def Cmd.Tracked (c : Cmd) (w : World) : Prop :=
  (∀ d ∈ c.closeAfterStart ++ c.closeAfterWait, d.fd < w.nextFd) ∧
    (∀ d ∈ c.closeAfterStart, d ∉ c.closeAfterWait)

/-- A set-up step that keeps the closer lists tracked and calls `Close` on nothing. -/
def Orderly (env : Env) (f : Env → Cmd → World → Outcome Unit) : Prop :=
  ∀ (c : Cmd) (w : World),
    (c.Tracked w → (f env c w).c.Tracked (f env c w).w) ∧
      ∃ evs, (f env c w).w.log = w.log ++ evs ∧ ∀ e ∈ evs, e.isClose = false

/-- Contents of `Bytes()` of a fresh saver of capacity `C` after the chunks `ps`, as a slice. -/
def saverBytes (fuel : Nat) (C : Int) (ps : List (List Byte)) : Except Fault Slice := do
  let w ← prefixSuffixSaver.writes fuel { N := C } ps
  w.Bytes

/-- Whether an event is the call of the launch primitive. -/
def Event.isLaunch : Event → Bool
  | .startProcess _ _ _ _ _ _ => true
  | _ => false

instance (c : Cmd) (w : World) : Decidable (c.Tracked w) := by
  unfold Cmd.Tracked
  infer_instance

/-- The caller's streams of `c'` are those of `c`. -/
def SameStreams (c c' : Cmd) : Prop :=
  c'.Stdin = c.Stdin ∧ c'.Stdout = c.Stdout ∧ c'.Stderr = c.Stderr

/-- The calm environment, with a process that exits with status 42 after it wrote
`"hi"` to its standard output and `"oops"` to its standard error. -/
def Env.exit42 : Env :=
  { Env.calm with
    processWait := .ok { pid := 100, exitCode := 42 }
    copied := fun t =>
      match t with
      | CopyTask.fromProcess (Stream.buffer _) _ => [[104, 105]]
      | CopyTask.fromProcess (Stream.saver _) _ => [[111, 111], [112, 115]]
      | _ => [] }

/-- A sequence of `k` chunks of `m` zero bytes each. -/
def zeros (k m : Nat) : List (List Byte) := List.replicate k (List.replicate m 0)

/-- The calm environment, except that the file with descriptor 5 is a native pipe. -/
def Env.piped : Env :=
  { Env.calm with
    fileType := fun f =>
      if f = 5 then (FileType.fileTypePipe, none) else (FileType.fileTypeOther 0, none) }

/-! ## The bounded output buffer -/

theorem Slice.append_nil_right (s : Slice) : s.append [] = s := by
  cases s <;> simp [Slice.append]

theorem Slice.data_append (s : Slice) (xs : List Byte) : (s.append xs).data = s.data ++ xs := by
  cases s <;> cases xs <;> simp [Slice.append, Slice.data]

theorem Slice.isNil_append (s : Slice) (xs : List Byte) :
    (s.append xs).isNil = (s.isNil && xs.isEmpty) := by
  cases s <;> cases xs <;> simp [Slice.append, Slice.isNil]

theorem Slice.append_eq_mk (s : Slice) (xs : List Byte) (h : 0 < (s.data ++ xs).length) :
    s.append xs = Slice.mk (s.data ++ xs) := by
  cases s <;> cases xs <;> simp_all [Slice.append, Slice.data]

theorem sliceFrom_ok (p : List Byte) (k : Nat) (h : k ≤ p.length) :
    sliceFrom p (k : Int) = .ok (p.drop k) := by
  simp [sliceFrom, h]

theorem sliceTo_ok (p : List Byte) (k : Nat) (h : k ≤ p.length) :
    sliceTo p (k : Int) = .ok (p.take k) := by
  simp [sliceTo, h]

theorem fill_eq (w : prefixSuffixSaver) (dst : Slice) (p : List Byte) :
    w.fill dst p =
      .ok (dst.append (p.take (w.N - dst.len).toNat), p.drop (w.N - dst.len).toNat) := by
  unfold prefixSuffixSaver.fill
  by_cases h : w.N - dst.len > 0
  · simp only [h, if_true]
    by_cases hlt : (p.length : Int) < w.N - dst.len
    · have e : minInt (p.length : Int) (w.N - dst.len) = ((p.length : Nat) : Int) := by
        simp [minInt, hlt]
      rw [e, sliceTo_ok p p.length (le_refl _), sliceFrom_ok p p.length (le_refl _)]
      have h1 : p.length ≤ (w.N - dst.len).toNat := by omega
      simp [bind, Except.bind, pure, Except.pure, List.take_of_length_le h1,
        List.drop_of_length_le h1]
    · have e : minInt (p.length : Int) (w.N - dst.len) = (((w.N - dst.len).toNat : Nat) : Int) := by
        simp only [minInt, hlt, if_false]; omega
      have h1 : (w.N - dst.len).toNat ≤ p.length := by omega
      rw [e, sliceTo_ok p _ h1, sliceFrom_ok p _ h1]
      simp [bind, Except.bind, pure, Except.pure]
  · have h0 : (w.N - dst.len).toNat = 0 := by omega
    simp [h, h0, Slice.append_nil_right, pure, Except.pure]

theorem ring_nil (fuel : Nat) (w : prefixSuffixSaver) : prefixSuffixSaver.ring fuel w [] = .ok w := by
  cases fuel <;> simp [prefixSuffixSaver.ring]

theorem wrapInt64_idem (x : Int) : wrapInt64 (wrapInt64 x) = wrapInt64 x := by
  simp only [wrapInt64]
  omega

theorem wrapInt64_add (x y : Int) : wrapInt64 (wrapInt64 x + y) = wrapInt64 (x + y) := by
  simp only [wrapInt64]
  omega

theorem wrapInt64_add_add (x y z : Int) :
    wrapInt64 (wrapInt64 (wrapInt64 x + y) + z) = wrapInt64 (x + (y + z)) := by
  rw [wrapInt64_add, add_assoc, wrapInt64_add]

theorem wrapInt64_zero : wrapInt64 0 = 0 := by decide

theorem wrapInt64_of_range (x : Int) (h0 : -9223372036854775808 ≤ x)
    (h1 : x < 9223372036854775808) : wrapInt64 x = x := by
  simp only [wrapInt64]
  omega

/-- One iteration of the ring loop, when the write offset lies inside the suffix. -/
theorem ring_step (f : Nat) (w : prefixSuffixSaver) (p : List Byte)
    (h0 : 0 ≤ w.suffixOff) (hle : w.suffixOff.toNat ≤ w.suffix.data.length)
    (hp : 0 < p.length) :
    prefixSuffixSaver.ring (f + 1) w p =
      prefixSuffixSaver.ring f
        { w with
          suffix := w.suffix.store w.suffixOff.toNat p
          skipped := wrapInt64
            (w.skipped + ((min (w.suffix.data.length - w.suffixOff.toNat) p.length : Nat) : Int))
          suffixOff :=
            if w.suffixOff + ((min (w.suffix.data.length - w.suffixOff.toNat) p.length : Nat) : Int)
                = w.N then 0
            else w.suffixOff + ((min (w.suffix.data.length - w.suffixOff.toNat) p.length : Nat) : Int) }
        (p.drop (min (w.suffix.data.length - w.suffixOff.toNat) p.length)) := by
  have e1 : sliceFrom w.suffix.data w.suffixOff = .ok (w.suffix.data.drop w.suffixOff.toNat) := by
    have hh := sliceFrom_ok w.suffix.data w.suffixOff.toNat hle
    rwa [Int.toNat_of_nonneg h0] at hh
  rw [prefixSuffixSaver.ring]
  simp only [hp, gt_iff_lt, if_true, e1, bind, Except.bind, List.length_drop]
  rw [sliceFrom_ok p _ (Nat.min_le_right _ _)]

theorem rot_store_fit (s p : List Byte) (o : Nat) (h : o + p.length ≤ s.length) :
    rot (s.take o ++ p.take (s.length - o) ++ s.drop (o + min (s.length - o) p.length))
        (if o + p.length = s.length then 0 else o + p.length)
      = (rot s o ++ p).drop p.length := by
  have e1 : min (s.length - o) p.length = p.length := by omega
  have e2 : p.take (s.length - o) = p := List.take_of_length_le (by omega)
  rw [e1, e2]
  unfold rot
  apply List.ext_getElem?
  intro i
  split
  · simp only [List.getElem?_append, List.getElem?_drop, List.getElem?_take, List.length_append,
      List.length_drop, List.length_take]
    split_ifs <;> first
      | omega | rfl | (congr 1; omega)
      | (symm; apply List.getElem?_eq_none; omega)
  · simp only [List.getElem?_append, List.getElem?_drop, List.getElem?_take, List.length_append,
      List.length_drop, List.length_take]
    split_ifs <;> first
      | omega | rfl | (congr 1; omega)
      | (symm; apply List.getElem?_eq_none; omega)

theorem rot_store_wrap (s p : List Byte) (o : Nat) (ho : o ≤ s.length)
    (h : s.length < o + p.length) :
    (rot (s.take o ++ p.take (s.length - o) ++ s.drop (o + min (s.length - o) p.length)) 0
        ++ p.drop (min (s.length - o) p.length)).drop (p.drop (min (s.length - o) p.length)).length
      = (rot s o ++ p).drop p.length := by
  have e1 : min (s.length - o) p.length = s.length - o := by omega
  rw [e1]
  unfold rot
  apply List.ext_getElem?
  intro i
  simp only [List.getElem?_append, List.getElem?_drop, List.getElem?_take, List.length_append,
    List.length_drop, List.length_take, List.take_zero, List.append_nil, List.drop_zero]
  split_ifs <;> first
    | omega | rfl | (congr 1; omega)

/-- A chunk that fits between the write offset and the end of the ring is stored
by one iteration of the loop. -/
theorem ring_fit (n f : Nat) (w : prefixSuffixSaver) (p chron : List Byte)
    (hN : w.N = (n : Int)) (hst : RingState n w chron)
    (hsk : wrapInt64 w.skipped = w.skipped)
    (hp : w.suffixOff + (p.length : Int) ≤ (n : Int)) :
    ∃ w', prefixSuffixSaver.ring (f + 1) w p = .ok w' ∧ w'.N = (n : Int) ∧
      w'.prefix_ = w.prefix_ ∧ w'.skipped = wrapInt64 (w.skipped + (p.length : Int)) ∧
      RingState n w' ((chron ++ p).drop p.length) ∧
      (p.length = 0 → w'.suffixOff = w.suffixOff) := by
  obtain ⟨s, hs, hlen, h0, hlt, hrot⟩ := hst
  by_cases hp0 : p.length = 0
  · have : p = [] := List.length_eq_zero.mp hp0
    subst this
    exact ⟨w, ring_nil _ _, hN, rfl, by simpa using hsk.symm,
      ⟨s, hs, hlen, h0, hlt, by simpa using hrot⟩, fun _ => rfl⟩
  · have hdata : w.suffix.data = s := by rw [hs]; rfl
    have hle : w.suffixOff.toNat ≤ w.suffix.data.length := by rw [hdata]; omega
    rw [ring_step f w p h0 hle (by omega)]
    have emin : min (w.suffix.data.length - w.suffixOff.toNat) p.length = p.length := by
      rw [hdata]; omega
    rw [emin, List.drop_length, ring_nil]
    by_cases hc : w.suffixOff + (p.length : Int) = (n : Int)
    · have hc' : w.suffixOff.toNat + p.length = s.length := by omega
      refine ⟨_, rfl, hN, rfl, rfl, ⟨_, by rw [hs]; rfl, ?_, ?_, ?_, ?_⟩, fun h => absurd h hp0⟩
      · simp only [List.length_append, List.length_take, List.length_drop]; omega
      · simp [hN, hc]
      · simp only [hN, hc, if_true]; omega
      · have key := rot_store_fit s p w.suffixOff.toNat (by omega)
        simp only [hc', if_true] at key
        simp only [hN, hc, if_true, Int.toNat_zero]
        rw [← hrot, ← key]
    · have hc' : ¬ w.suffixOff.toNat + p.length = s.length := by omega
      refine ⟨_, rfl, hN, rfl, rfl, ⟨_, by rw [hs]; rfl, ?_, ?_, ?_, ?_⟩, fun h => absurd h hp0⟩
      · simp only [List.length_append, List.length_take, List.length_drop]; omega
      · simp only [hN, hc, if_false]; omega
      · simp only [hN, hc, if_false]; omega
      · have key := rot_store_fit s p w.suffixOff.toNat (by omega)
        simp only [hc', if_false] at key
        simp only [hN, hc, if_false]
        rw [← hrot, ← key]
        congr 1
        omega

/-- The ring loop stores a chunk of at most `n` bytes in at most two iterations. -/
theorem ring_spec (n fuel : Nat) (w : prefixSuffixSaver) (p chron : List Byte)
    (hfuel : 2 ≤ fuel) (hN : w.N = (n : Int)) (hst : RingState n w chron)
    (hsk : wrapInt64 w.skipped = w.skipped)
    (hp : p.length ≤ n) :
    ∃ w', prefixSuffixSaver.ring fuel w p = .ok w' ∧ w'.N = (n : Int) ∧
      w'.prefix_ = w.prefix_ ∧ w'.skipped = wrapInt64 (w.skipped + (p.length : Int)) ∧
      RingState n w' ((chron ++ p).drop p.length) ∧
      (p.length = 0 → w'.suffixOff = w.suffixOff) := by
  obtain ⟨f, rfl⟩ : ∃ f, fuel = f + 2 := ⟨fuel - 2, by omega⟩
  by_cases hfit : w.suffixOff + (p.length : Int) ≤ (n : Int)
  · exact ring_fit n (f + 1) w p chron hN hst hsk hfit
  · obtain ⟨s, hs, hlen, h0, hlt, hrot⟩ := hst
    have hdata : w.suffix.data = s := by rw [hs]; rfl
    have hle : w.suffixOff.toNat ≤ w.suffix.data.length := by rw [hdata]; omega
    rw [ring_step (f + 1) w p h0 hle (by omega)]
    have emin : min (w.suffix.data.length - w.suffixOff.toNat) p.length
        = s.length - w.suffixOff.toNat := by
      rw [hdata]; omega
    have ewrap : w.suffixOff + ((s.length - w.suffixOff.toNat : Nat) : Int) = w.N := by omega
    rw [emin]
    simp only [ewrap, if_true]
    have hst1 : RingState n
        ⟨w.N, w.prefix_, w.suffix.store w.suffixOff.toNat p, 0,
          wrapInt64 (w.skipped + ((s.length - w.suffixOff.toNat : Nat) : Int))⟩
        (rot (s.take w.suffixOff.toNat ++ p.take (s.length - w.suffixOff.toNat)
          ++ s.drop (w.suffixOff.toNat + min (s.length - w.suffixOff.toNat) p.length)) 0) := by
      refine ⟨_, by rw [hs]; rfl, ?_, le_refl _, ?_, rfl⟩
      · simp only [List.length_append, List.length_take, List.length_drop]; omega
      · show (0 : Int) < (n : Int)
        omega
    obtain ⟨w', hw', hN', hpre', hsk', hst', -⟩ :=
      ring_fit n f ⟨w.N, w.prefix_, w.suffix.store w.suffixOff.toNat p, 0,
          wrapInt64 (w.skipped + ((s.length - w.suffixOff.toNat : Nat) : Int))⟩
        (p.drop (s.length - w.suffixOff.toNat)) _ hN hst1 (wrapInt64_idem _)
        (by show (0 : Int) + _ ≤ _; simp only [List.length_drop]; omega)
    refine ⟨w', hw', hN', hpre', ?_, ?_, fun h => by omega⟩
    · rw [hsk']
      show wrapInt64 (wrapInt64 (w.skipped + _) + _) = _
      rw [wrapInt64_add]
      congr 1
      simp only [List.length_drop]; omega
    · have key := rot_store_wrap s p w.suffixOff.toNat (by omega) (by omega)
      have e1 : min (s.length - w.suffixOff.toNat) p.length = s.length - w.suffixOff.toNat := by
        omega
      rw [e1] at key
      rw [← hrot, ← key]
      rw [e1] at hst'
      exact hst'

/-- The state and the rest of the chunk with which `Write` enters its ring loop. -/
theorem Write_eq (n fuel : Nat) (w : prefixSuffixSaver) (p : List Byte) (hN : w.N = (n : Int))
    (hsk : wrapInt64 w.skipped = w.skipped) :
    w.Write fuel p =
      (prefixSuffixSaver.ring fuel
        ⟨w.N, w.prefix_.append (p.take (w.N - w.prefix_.len).toNat),
          w.suffix.append ((lastN n (p.drop (w.N - w.prefix_.len).toNat)).take
            (w.N - w.suffix.len).toNat),
          w.suffixOff,
          wrapInt64
            (w.skipped + (((p.drop (w.N - w.prefix_.len).toNat).length - n : Nat) : Int))⟩
        ((lastN n (p.drop (w.N - w.prefix_.len).toNat)).drop (w.N - w.suffix.len).toNat)).map
        (fun w4 => (w4, (p.length : Int))) := by
  unfold prefixSuffixSaver.Write
  rw [fill_eq]
  simp only [bind, Except.bind]
  by_cases hov : ((p.drop (w.N - w.prefix_.len).toNat).length : Int) - w.N > 0
  · simp only [hov, if_true]
    have e : ((p.drop (w.N - w.prefix_.len).toNat).length : Int) - w.N
        = (((p.drop (w.N - w.prefix_.len).toNat).length - n : Nat) : Int) := by omega
    rw [e, sliceFrom_ok _ _ (Nat.sub_le _ _)]
    simp only [pure, Except.pure, fill_eq]
    unfold lastN
    cases prefixSuffixSaver.ring fuel _ _ <;> rfl
  · simp only [hov, if_false]
    have e : (p.drop (w.N - w.prefix_.len).toNat).length - n = 0 := by omega
    simp only [pure, Except.pure, fill_eq]
    unfold lastN
    rw [e]
    simp only [List.drop_zero, Nat.cast_zero, add_zero, hsk]
    cases prefixSuffixSaver.ring fuel _ _ <;> rfl

theorem lastN_join_filling (a p : List Byte) (n : Nat) (h1 : a.length < n + n)
    (h2 : n + n ≤ a.length + p.length) :
    ((a.drop n ++ (lastN n (p.drop (n - a.length))).take (n - (a.length - n)))
        ++ (lastN n (p.drop (n - a.length))).drop (n - (a.length - n))).drop
        ((lastN n (p.drop (n - a.length))).drop (n - (a.length - n))).length
      = lastN n (a ++ p) := by
  unfold lastN
  apply List.ext_getElem?
  intro i
  simp only [List.getElem?_append, List.getElem?_drop, List.getElem?_take, List.length_append,
    List.length_drop, List.length_take]
  split_ifs <;> first
    | omega | rfl | (congr 1; omega)

theorem lastN_join_full (a p : List Byte) (n : Nat) (h1 : n ≤ a.length) :
    (lastN n a ++ lastN n p).drop (lastN n p).length = lastN n (a ++ p) := by
  unfold lastN
  apply List.ext_getElem?
  intro i
  simp only [List.getElem?_append, List.getElem?_drop, List.getElem?_take, List.length_append,
    List.length_drop, List.length_take]
  split_ifs <;> first
    | omega | rfl | (congr 1; omega)

theorem SaverInv.fresh (n : Nat) : SaverInv n [] { N := (n : Int) } := by
  refine ⟨rfl, by simp [Slice.data], by simp [wrapInt64_zero], ?_⟩
  by_cases h : 0 < n
  · exact Or.inl ⟨h, by simpa using h, by simp [Slice.data], rfl, by simp [Slice.isNil]⟩
  · exact Or.inr (Or.inr ⟨by omega, rfl, rfl⟩)

/-- `Write` returns, reports the length of the chunk, and keeps the state of the saver
in step with the bytes written. -/
theorem Write_inv (n fuel : Nat) (a p : List Byte) (w : prefixSuffixSaver)
    (hfuel : 2 ≤ fuel) (hw : SaverInv n a w) :
    ∃ w', w.Write fuel p = .ok (w', (p.length : Int)) ∧ SaverInv n (a ++ p) w' := by
  obtain ⟨hN, hpre, hskip, hsuf⟩ := hw
  have hplen : w.prefix_.len = ((min n a.length : Nat) : Int) := by
    simp [Slice.len, hpre, List.length_take]
  have er1 : (w.N - w.prefix_.len).toNat = n - a.length := by omega
  have hpre' : (w.prefix_.append (p.take (n - a.length))).data = (a ++ p).take n := by
    rw [Slice.data_append, hpre, List.take_append_eq_append_take]
  have hsk : wrapInt64 w.skipped = w.skipped := by rw [hskip, wrapInt64_idem]
  rw [Write_eq n fuel w p hN hsk, er1]
  rcases hsuf with ⟨hn, hT, hdata, hoff, hnil⟩ | ⟨hn, hT, hring, hoff⟩ | ⟨hn, hnil, hoff⟩
  · -- the suffix is not full yet
    have hslen : w.suffix.len = ((a.length - n : Nat) : Int) := by
      simp [Slice.len, hdata, List.length_drop]
    have er2 : (w.N - w.suffix.len).toNat = n - (a.length - n) := by omega
    rw [er2]
    by_cases hfull : n + n ≤ a.length + p.length
    · -- this chunk fills the suffix and may go round the ring
      have hlen3 : (w.suffix.data ++ (lastN n (p.drop (n - a.length))).take
          (n - (a.length - n))).length = n := by
        simp only [hdata, lastN, List.length_append, List.length_take, List.length_drop]
        omega
      have hst3 : RingState n
          ⟨w.N, w.prefix_.append (p.take (n - a.length)),
            w.suffix.append ((lastN n (p.drop (n - a.length))).take (n - (a.length - n))),
            w.suffixOff,
            wrapInt64 (w.skipped + (((p.drop (n - a.length)).length - n : Nat) : Int))⟩
          (a.drop n ++ (lastN n (p.drop (n - a.length))).take (n - (a.length - n))) := by
        refine ⟨_, Slice.append_eq_mk _ _ (by omega), hlen3, ?_, ?_, ?_⟩
        · show 0 ≤ w.suffixOff
          omega
        · show w.suffixOff < (n : Int)
          omega
        · show rot _ w.suffixOff.toNat = _
          rw [hoff, hdata]
          simp [rot]
      obtain ⟨w', hw', hN', hp', hsk', hst', hoff'⟩ :=
        ring_spec n fuel
          ⟨w.N, w.prefix_.append (p.take (n - a.length)),
            w.suffix.append ((lastN n (p.drop (n - a.length))).take (n - (a.length - n))),
            w.suffixOff,
            wrapInt64 (w.skipped + (((p.drop (n - a.length)).length - n : Nat) : Int))⟩
          ((lastN n (p.drop (n - a.length))).drop (n - (a.length - n))) _
          hfuel hN hst3 (wrapInt64_idem _)
          (by simp only [lastN, List.length_drop]; omega)
      refine ⟨w', by rw [hw']; rfl, hN', by rw [hp']; exact hpre', ?_, ?_⟩
      · rw [hsk']
        show wrapInt64 (wrapInt64 (w.skipped + _) + _) = _
        rw [hskip, wrapInt64_add_add]
        congr 1
        simp only [lastN, List.length_drop, List.length_append]
        omega
      · refine Or.inr (Or.inl ⟨hn, by simp only [List.length_append]; omega, ?_, ?_⟩)
        · rw [lastN_join_filling a p n hT hfull] at hst'
          exact hst'
        · intro hex
          rw [hoff' (by
            simp only [lastN, List.length_drop, List.length_append] at hex ⊢
            omega)]
          exact hoff
    · -- the suffix stays partial
      have hp3 : (lastN n (p.drop (n - a.length))).drop (n - (a.length - n)) = [] := by
        apply List.drop_of_length_le
        simp only [lastN, List.length_drop]
        omega
      have hp2 : (lastN n (p.drop (n - a.length))).take (n - (a.length - n))
          = p.drop (n - a.length) := by
        have e0 : (p.drop (n - a.length)).length - n = 0 := by
          simp only [List.length_drop]; omega
        unfold lastN
        rw [e0, List.drop_zero]
        apply List.take_of_length_le
        simp only [List.length_drop]
        omega
      have e0 : (p.drop (n - a.length)).length - n = 0 := by
        simp only [List.length_drop]; omega
      rw [hp3, hp2, ring_nil, e0]
      refine ⟨_, rfl, hN, hpre', ?_, ?_⟩
      · show wrapInt64 (w.skipped + _) = _
        rw [hskip, wrapInt64_add]
        congr 1
        simp only [List.length_append]
        omega
      · refine Or.inl ⟨hn, by simp only [List.length_append]; omega, ?_, hoff, ?_⟩
        · show (w.suffix.append _).data = _
          rw [Slice.data_append, hdata, List.drop_append_eq_append_drop]
        · show (w.suffix.append _).isNil = true ↔ _
          rw [Slice.isNil_append]
          simp only [Bool.and_eq_true, hnil, List.isEmpty_iff, List.length_append,
            List.drop_eq_nil_iff]
          omega
  · -- the suffix is a full ring
    obtain ⟨s, hs, hlen, h0, hlt, hrot⟩ := hring
    have hslen : w.suffix.len = (n : Int) := by
      simp [Slice.len, hs, Slice.data, hlen]
    have er2 : (w.N - w.suffix.len).toNat = 0 := by omega
    have ea : n - a.length = 0 := by omega
    rw [er2, ea]
    simp only [List.drop_zero, List.take_zero, Slice.append_nil_right]
    obtain ⟨w', hw', hN', hp', hsk', hst', hoff'⟩ :=
      ring_spec n fuel ⟨w.N, w.prefix_, w.suffix, w.suffixOff,
          wrapInt64 (w.skipped + ((p.length - n : Nat) : Int))⟩ (lastN n p) (lastN n a)
        hfuel hN ⟨s, hs, hlen, h0, hlt, hrot⟩ (wrapInt64_idem _)
        (by simp only [lastN, List.length_drop]; omega)
    refine ⟨w', by rw [hw']; rfl, hN', ?_, ?_, ?_⟩
    · rw [hp']
      show w.prefix_.data = _
      rw [hpre, List.take_append_of_le_length (by omega)]
    · rw [hsk']
      show wrapInt64 (wrapInt64 (w.skipped + _) + _) = _
      rw [hskip, wrapInt64_add_add]
      congr 1
      simp only [lastN, List.length_drop, List.length_append]
      omega
    · refine Or.inr (Or.inl ⟨hn, by simp only [List.length_append]; omega, ?_, ?_⟩)
      · rw [lastN_join_full a p n (by omega)] at hst'
        exact hst'
      · intro hex
        simp only [List.length_append] at hex
        rw [hoff' (by simp only [lastN, List.length_drop]; omega)]
        exact hoff (by omega)
  · -- capacity zero: nothing is retained
    subst hn
    have hslen : w.suffix.len = 0 := by simp [Slice.len, hnil, Slice.data]
    have er2 : (w.N - w.suffix.len).toNat = 0 := by omega
    rw [er2]
    simp only [Nat.zero_sub, List.drop_zero, List.take_zero, Slice.append_nil_right, lastN,
      Nat.sub_zero, List.drop_length, ring_nil]
    refine ⟨_, rfl, hN, ?_, ?_, Or.inr (Or.inr ⟨rfl, hnil, hoff⟩)⟩
    · show w.prefix_.data = _
      rw [hpre]; simp
    · show wrapInt64 (w.skipped + _) = _
      rw [hskip, wrapInt64_add]
      congr 1
      simp only [List.length_append]
      omega

/-- Any sequence of `Write` calls returns and keeps the state of the saver in step
with the concatenation of the chunks. -/
theorem writes_inv (n fuel : Nat) (hfuel : 2 ≤ fuel) (ps : List (List Byte)) :
    ∀ (a : List Byte) (w : prefixSuffixSaver), SaverInv n a w →
      ∃ w', prefixSuffixSaver.writes fuel w ps = .ok w' ∧ SaverInv n (a ++ ps.flatten) w' := by
  induction ps with
  | nil =>
    intro a w hw
    exact ⟨w, rfl, by simpa using hw⟩
  | cons p ps ih =>
    intro a w hw
    obtain ⟨w1, hw1, hinv1⟩ := Write_inv n fuel a p w hfuel hw
    obtain ⟨w2, hw2, hinv2⟩ := ih (a ++ p) w1 hinv1
    refine ⟨w2, ?_, by simpa [List.append_assoc] using hinv2⟩
    simp only [prefixSuffixSaver.writes, hw1, bind, Except.bind]
    exact hw2

/-- What `Bytes` returns for a saver of capacity `n` to which the bytes `a` were written.
When the `int64` counter has wrapped round to zero, the ring is returned as it is stored. -/
theorem Bytes_spec (n : Nat) (a : List Byte) (w : prefixSuffixSaver) (hw : SaverInv n a w) :
    ∃ b, w.Bytes = .ok b ∧
      b.data =
        if a.length ≤ n + n then a
        else if n = 0 then []
        else if wrapInt64 ((a.length : Int) - 2 * (n : Int)) = 0 then
          a.take n ++ w.suffix.data
        else a.take n ++ marker (wrapInt64 ((a.length : Int) - 2 * (n : Int)))
          ++ a.drop (a.length - n) := by
  obtain ⟨hN, hpre, hskip, hsuf⟩ := hw
  rcases hsuf with ⟨hn, hT, hdata, hoff, hnil⟩ | ⟨hn, hT, ⟨s, hs, hlen, h0, hlt, hrot⟩, hoff⟩ |
    ⟨hn, hnil, hoff⟩
  · have hsk0 : w.skipped = 0 := by
      rw [hskip, show a.length - n - n = 0 by omega]
      exact wrapInt64_zero
    have hle : a.length ≤ n + n := by omega
    unfold prefixSuffixSaver.Bytes
    by_cases hc : w.suffix.isNil = true
    · refine ⟨w.prefix_, by simp only [hc, if_true], ?_⟩
      rw [hpre, if_pos hle]
      exact List.take_of_length_le (hnil.mp hc)
    · refine ⟨_, by simp only [hc, hsk0, if_true]; rfl, ?_⟩
      rw [Slice.data_append, hpre, hdata, if_pos hle, List.take_append_drop]
  · have hnn : w.suffix.isNil = false := by rw [hs]; rfl
    have hsd : w.suffix.data = s := by rw [hs]; rfl
    unfold prefixSuffixSaver.Bytes
    by_cases hex : a.length = n + n
    · have hsk0 : w.skipped = 0 := by
        rw [hskip, show a.length - n - n = 0 by omega]
        exact wrapInt64_zero
      refine ⟨_, by simp only [hnn, hsk0, if_true]; rfl, ?_⟩
      have hs' : s = lastN n a := by
        have := hrot
        rw [hoff hex] at this
        simpa [rot] using this
      rw [Slice.data_append, hpre, hsd, hs', if_pos (by omega)]
      unfold lastN
      rw [hex]
      simp
    · have e3 : w.skipped = wrapInt64 ((a.length : Int) - 2 * (n : Int)) := by
        rw [hskip]
        congr 1
        omega
      by_cases hsk : w.skipped = 0
      · refine ⟨_, by simp only [hnn, hsk, if_true]; rfl, ?_⟩
        rw [if_neg (by omega), if_neg (by omega), if_pos (by rw [← e3]; exact hsk),
          Slice.data_append, hpre]
      · have e1 : sliceFrom s w.suffixOff = .ok (s.drop w.suffixOff.toNat) := by
          have hh := sliceFrom_ok s w.suffixOff.toNat (by omega)
          rwa [Int.toNat_of_nonneg h0] at hh
        have e2 : sliceTo s w.suffixOff = .ok (s.take w.suffixOff.toNat) := by
          have hh := sliceTo_ok s w.suffixOff.toNat (by omega)
          rwa [Int.toNat_of_nonneg h0] at hh
        refine ⟨Slice.mk (w.prefix_.data ++ marker w.skipped ++ s.drop w.suffixOff.toNat
          ++ s.take w.suffixOff.toNat), ?_, ?_⟩
        · simp only [hnn, hsk, hsd, e1, e2, if_false, bind, Except.bind, pure, Except.pure]
          rfl
        · rw [if_neg (by omega), if_neg (by omega), if_neg (by rw [← e3]; exact hsk)]
          show w.prefix_.data ++ marker w.skipped ++ s.drop w.suffixOff.toNat
            ++ s.take w.suffixOff.toNat = _
          rw [hpre, e3, List.append_assoc _ (s.drop _)]
          show _ ++ rot s w.suffixOff.toNat = _
          rw [hrot]
          rfl
  · subst hn
    refine ⟨w.prefix_, by simp [prefixSuffixSaver.Bytes, hnil, Slice.isNil], ?_⟩
    rw [hpre]
    by_cases h : a.length ≤ 0 + 0
    · have : a = [] := List.length_eq_zero.mp (by omega)
      simp [this]
    · simp [h]

/-- Contents of `Bytes()` after any sequence of `Write` calls on a fresh saver of capacity
`n`, as long as the `int64` counter of skipped bytes has not wrapped round to zero. -/
theorem savedBytes_spec (n fuel : Nat) (hfuel : 2 ≤ fuel) (ps : List (List Byte))
    (hnz : ps.flatten.length ≤ n + n ∨
      wrapInt64 ((ps.flatten.length : Int) - 2 * (n : Int)) ≠ 0) :
    savedBytes fuel (n : Int) ps = .ok
      (if ps.flatten.length ≤ n + n then ps.flatten
        else if n = 0 then []
        else ps.flatten.take n ++ marker (wrapInt64 ((ps.flatten.length : Int) - 2 * (n : Int)))
          ++ ps.flatten.drop (ps.flatten.length - n)) := by
  obtain ⟨w, hw, hinv⟩ := writes_inv n fuel hfuel ps [] _ (SaverInv.fresh n)
  rw [List.nil_append] at hinv
  obtain ⟨b, hb, hdata⟩ := Bytes_spec n _ w hinv
  simp only [savedBytes, hw, hb, bind, Except.bind, pure, Except.pure, hdata]
  rcases hnz with hle | hnz
  · rw [if_pos hle, if_pos hle]
  · rw [if_neg hnz]

/-- C1: for every capacity `C ≥ 0` and every sequence of `Write` calls on a fresh
`prefixSuffixSaver{N: C}` whose total byte count is at most `2C`, every call returns
and `Bytes()` holds exactly the concatenation of the written chunks, in order, with no
omission marker. -/
theorem C1_bytes_reproduces_input (C : Int) (fuel : Nat) (ps : List (List Byte))
    (hC : 0 ≤ C) (hfuel : 2 ≤ fuel) (htotal : (ps.flatten.length : Int) ≤ 2 * C) :
    savedBytes fuel C ps = .ok ps.flatten := by
  obtain ⟨n, rfl⟩ : ∃ n : Nat, C = (n : Int) := ⟨C.toNat, by omega⟩
  rw [savedBytes_spec n fuel hfuel ps (Or.inl (by omega)), if_pos (by omega)]

theorem C1_bytes_reproduces_input_witness :
    (0 : Int) ≤ 2 ∧ 2 ≤ 2 ∧ (([[1, 2, 3], [4]] : List (List Byte)).flatten.length : Int) ≤ 2 * 2 ∧
      savedBytes 2 2 [[1, 2, 3], [4]] = .ok [1, 2, 3, 4] :=
  ⟨by decide, by decide, by decide,
    C1_bytes_reproduces_input 2 2 [[1, 2, 3], [4]] (by decide) (by decide) (by decide)⟩

theorem zeros_flatten (k m : Nat) : (zeros k m).flatten = List.replicate (k * m) 0 := by
  unfold zeros
  induction k with
  | zero => simp
  | succ k ih =>
    rw [List.replicate_succ, List.flatten_cons, ih, Nat.succ_mul, Nat.add_comm (k * m) m,
      List.replicate_add]

theorem rot_eq_replicate (s : List Byte) (o n : Nat) (x : Byte)
    (h : rot s o = List.replicate n x) : s = List.replicate n x := by
  have hl : s.length = n := by
    have := congrArg List.length h
    simp only [rot, List.length_append, List.length_drop, List.length_take,
      List.length_replicate] at this
    omega
  rw [List.eq_replicate_iff]
  refine ⟨hl, fun b hb => ?_⟩
  have hb' : b ∈ rot s o := by
    rw [← List.take_append_drop o s] at hb
    simp only [rot, List.mem_append] at hb ⊢
    exact hb.symm
  rw [h] at hb'
  exact (List.mem_replicate.mp hb').2

/-- The saver of capacity `n ≥ 1` after `k` chunks of `m` zero bytes, more than `2n` in
all. -/
theorem zeros_saver (n fuel k m : Nat) (hfuel : 2 ≤ fuel) (hn : 0 < n) (hT : n + n < k * m) :
    ∃ w, prefixSuffixSaver.writes fuel { N := (n : Int) } (zeros k m) = .ok w ∧
      w.skipped = wrapInt64 (((k * m : Nat) : Int) - 2 * (n : Int)) ∧
      w.prefix_.data = List.replicate n 0 ∧ w.suffix = Slice.mk (List.replicate n 0) ∧
      0 ≤ w.suffixOff ∧ w.suffixOff < (n : Int) := by
  obtain ⟨w, hw, hinv⟩ := writes_inv n fuel hfuel (zeros k m) [] _ (SaverInv.fresh n)
  rw [List.nil_append, zeros_flatten] at hinv
  obtain ⟨hN, hpre, hskip, hsuf⟩ := hinv
  refine ⟨w, hw, ?_, ?_, ?_⟩
  · rw [hskip, List.length_replicate]
    congr 1
    omega
  · rw [hpre, List.take_replicate, Nat.min_eq_left (by omega)]
  · rw [List.length_replicate] at hsuf
    rcases hsuf with ⟨-, hT', -⟩ | ⟨-, -, ⟨s, hs, hlen, h0, hlt, hrot⟩, -⟩ | ⟨hn', -⟩
    · omega
    · refine ⟨?_, h0, hlt⟩
      rw [hs]
      congr 1
      apply rot_eq_replicate s w.suffixOff.toNat n 0
      rw [hrot, lastN, List.drop_replicate, List.length_replicate]
      congr 1
      omega
    · omega

theorem zeros_length (k m : Nat) : (zeros k m).flatten.length = k * m := by
  rw [zeros_flatten, List.length_replicate]

theorem zeros_take (n k m : Nat) (h : n ≤ k * m) :
    (zeros k m).flatten.take n = List.replicate n 0 := by
  rw [zeros_flatten, List.take_replicate, Nat.min_eq_left h]

theorem zeros_drop (n k m : Nat) (h : n ≤ k * m) :
    (zeros k m).flatten.drop ((zeros k m).flatten.length - n) = List.replicate n 0 := by
  rw [zeros_length, zeros_flatten, List.drop_replicate]
  congr 1
  omega

/-- What `Bytes()` holds after `k` chunks of `m` zero bytes, more than `2n` in all, were
written to a fresh saver of capacity `n ≥ 1`. -/
theorem savedBytes_zeros (n fuel k m : Nat) (hfuel : 2 ≤ fuel) (hn : 0 < n)
    (hT : n + n < k * m) :
    savedBytes fuel (n : Int) (zeros k m) = .ok
      (if wrapInt64 (((k * m : Nat) : Int) - 2 * (n : Int)) = 0 then
        List.replicate n 0 ++ List.replicate n 0
      else List.replicate n 0 ++ marker (wrapInt64 (((k * m : Nat) : Int) - 2 * (n : Int)))
        ++ List.replicate n 0) := by
  obtain ⟨w, hw, hsk, hpre, hsuf, h0, hlt⟩ := zeros_saver n fuel k m hfuel hn hT
  have hnn : w.suffix.isNil = false := by rw [hsuf]; rfl
  have hsd : w.suffix.data = List.replicate n 0 := by rw [hsuf]; rfl
  simp only [savedBytes, hw, bind, Except.bind, pure, Except.pure]
  by_cases hz : w.skipped = 0
  · rw [if_pos (by rw [← hsk]; exact hz)]
    unfold prefixSuffixSaver.Bytes
    simp only [hnn, hz, if_true, Bool.false_eq_true, if_false, Slice.data_append, hpre, hsd]
  · have e1 : sliceFrom (List.replicate n (0 : Byte)) w.suffixOff
        = .ok ((List.replicate n (0 : Byte)).drop w.suffixOff.toNat) := by
      have hh := sliceFrom_ok (List.replicate n (0 : Byte)) w.suffixOff.toNat
        (by rw [List.length_replicate]; omega)
      rwa [Int.toNat_of_nonneg h0] at hh
    have e2 : sliceTo (List.replicate n (0 : Byte)) w.suffixOff
        = .ok ((List.replicate n (0 : Byte)).take w.suffixOff.toNat) := by
      have hh := sliceTo_ok (List.replicate n (0 : Byte)) w.suffixOff.toNat
        (by rw [List.length_replicate]; omega)
      rwa [Int.toNat_of_nonneg h0] at hh
    have e3 : (List.replicate n (0 : Byte)).drop w.suffixOff.toNat
        ++ (List.replicate n (0 : Byte)).take w.suffixOff.toNat = List.replicate n 0 := by
      rw [List.drop_replicate, List.take_replicate, ← List.replicate_add]
      congr 1
      omega
    rw [if_neg (by rw [← hsk]; exact hz)]
    unfold prefixSuffixSaver.Bytes
    simp only [hnn, hz, hsd, e1, e2, if_false, Bool.false_eq_true, bind, Except.bind, pure,
      Except.pure]
    show Except.ok (w.prefix_.data ++ marker w.skipped
      ++ (List.replicate n (0 : Byte)).drop w.suffixOff.toNat
      ++ (List.replicate n (0 : Byte)).take w.suffixOff.toNat) = _
    rw [List.append_assoc _ (List.drop _ _), e3, hpre, hsk]

theorem marker_ne_nil (K : Int) : marker K ≠ [] := by
  unfold marker
  intro h
  have := congrArg List.length h
  simp only [List.length_append, List.length_nil] at this
  have h14 : (strBytes "\n... omitting ").length = 14 := by decide
  omega

/-- The view with the marker for `K` differs from what `Bytes()` holds for the zero
chunks as soon as the marker for the `int64` counter is another one or is left out. -/
theorem savedBytes_zeros_ne (n fuel k m : Nat) (hfuel : 2 ≤ fuel) (hn : 0 < n)
    (hT : n + n < k * m) (K : Int)
    (hK : wrapInt64 (((k * m : Nat) : Int) - 2 * (n : Int)) ≠ 0 →
      marker (wrapInt64 (((k * m : Nat) : Int) - 2 * (n : Int))) ≠ marker K) :
    savedBytes fuel (n : Int) (zeros k m) ≠ .ok
      ((zeros k m).flatten.take n ++ marker K
        ++ (zeros k m).flatten.drop ((zeros k m).flatten.length - n)) := by
  rw [savedBytes_zeros n fuel k m hfuel hn hT, zeros_take n k m (by omega),
    zeros_drop n k m (by omega)]
  intro h
  have h' := Except.ok.inj h
  by_cases hz : wrapInt64 (((k * m : Nat) : Int) - 2 * (n : Int)) = 0
  · rw [if_pos hz, List.append_assoc] at h'
    have h2 := List.append_cancel_left h'
    have h3 := congrArg List.length h2
    have h4 := marker_ne_nil K
    rw [List.length_append] at h3
    have h5 : (marker K).length = 0 := by omega
    exact h4 (List.length_eq_zero.mp h5)
  · rw [if_neg hz] at h'
    exact hK hz (List.append_cancel_left (List.append_cancel_right h'))

/-- C2 as stated fails once the `int64` counter of skipped bytes overflows. A fresh
saver of capacity `2^29` receives `2^33 + 1` chunks of `2^30` zero bytes: `2^63 + 2^30`
bytes in all, `2^63` of them skipped. The first chunk fills the prefix and the suffix;
each later chunk adds `2^29` to the counter at the overage step and `2^29` in the ring
loop. The counter has wrapped round to `-2^63`, and the marker of `Bytes()` reads
`-9223372036854775808`, not `T - 2C = 9223372036854775808`. -/
theorem C2_skipped_count_wraps :
    (1 : Int) ≤ 536870912 ∧
      2 * (536870912 : Int) < ((zeros 8589934593 1073741824).flatten.length : Int) ∧
      ((zeros 8589934593 1073741824).flatten.length : Int) - 2 * 536870912
        = 9223372036854775808 ∧
      savedBytes 2 536870912 (zeros 8589934593 1073741824) = .ok
        (List.replicate 536870912 0
          ++ strBytes "\n... omitting -9223372036854775808 bytes ...\n"
          ++ List.replicate 536870912 0) ∧
      savedBytes 2 536870912 (zeros 8589934593 1073741824) ≠ .ok
        ((zeros 8589934593 1073741824).flatten.take 536870912
          ++ (strBytes "\n... omitting "
            ++ formatInt (((zeros 8589934593 1073741824).flatten.length : Int) - 2 * 536870912)
            ++ strBytes " bytes ...\n")
          ++ (zeros 8589934593 1073741824).flatten.drop
            ((zeros 8589934593 1073741824).flatten.length - 536870912)) := by
  have hlen : ((zeros 8589934593 1073741824).flatten.length : Int) = 9223372037928517632 := by
    rw [zeros_length]
    norm_num
  have hwrap : wrapInt64 (((8589934593 * 1073741824 : Nat) : Int) - 2 * ((536870912 : Nat) : Int))
      = -9223372036854775808 := by decide
  have hm : marker (-9223372036854775808)
      = strBytes "\n... omitting -9223372036854775808 bytes ...\n" := by decide
  refine ⟨by decide, ?_, ?_, ?_, ?_⟩
  · rw [hlen]
    decide
  · rw [hlen]
    decide
  · have h := savedBytes_zeros 536870912 2 8589934593 1073741824 (by decide) (by decide)
      (by norm_num)
    rw [hwrap, if_neg (by decide), hm] at h
    exact h
  · have h := savedBytes_zeros_ne 536870912 2 8589934593 1073741824 (by decide) (by decide)
      (by norm_num) (((zeros 8589934593 1073741824).flatten.length : Int) - 2 * 536870912)
      (by
        intro _
        rw [hwrap, hlen]
        decide)
    exact h

/-- C2, amended: for every capacity `C ≥ 1` and every sequence of `Write` calls on a fresh
`prefixSuffixSaver{N: C}` whose total byte count `T` exceeds `2C` by less than `2^63` (so
that the `int64` counter of skipped bytes has not overflowed), however the bytes are
split into chunks, `Bytes()` holds the first `C` bytes of the concatenated input, then the
marker `"\n... omitting K bytes ...\n"` with `K = T - 2C` in decimal, then the last `C`
bytes of the concatenated input in their original order. -/
theorem C2_bytes_truncated_view (C : Int) (fuel : Nat) (ps : List (List Byte))
    (hC : 1 ≤ C) (hfuel : 2 ≤ fuel) (htotal : 2 * C < (ps.flatten.length : Int))
    (hbound : (ps.flatten.length : Int) - 2 * C < 9223372036854775808) :
    savedBytes fuel C ps = .ok
      (ps.flatten.take C.toNat
        ++ (strBytes "\n... omitting " ++ formatInt ((ps.flatten.length : Int) - 2 * C)
          ++ strBytes " bytes ...\n")
        ++ ps.flatten.drop (ps.flatten.length - C.toNat)) := by
  obtain ⟨n, rfl⟩ : ∃ n : Nat, C = (n : Int) := ⟨C.toNat, by omega⟩
  have e : wrapInt64 ((ps.flatten.length : Int) - 2 * (n : Int))
      = (ps.flatten.length : Int) - 2 * (n : Int) :=
    wrapInt64_of_range _ (by omega) hbound
  rw [savedBytes_spec n fuel hfuel ps (Or.inr (by rw [e]; omega)), if_neg (by omega),
    if_neg (by omega), e]
  rfl

theorem C2_bytes_truncated_view_witness :
    (1 : Int) ≤ 2 ∧ 2 ≤ 2 ∧
      2 * 2 < (([[1, 2, 3], [4, 5], [6, 7, 8, 9]] : List (List Byte)).flatten.length : Int) ∧
      (([[1, 2, 3], [4, 5], [6, 7, 8, 9]] : List (List Byte)).flatten.length : Int) - 2 * 2
        < 9223372036854775808 ∧
      savedBytes 2 2 [[1, 2, 3], [4, 5], [6, 7, 8, 9]] = .ok
        ([1, 2] ++ strBytes "\n... omitting 5 bytes ...\n" ++ [8, 9]) :=
  ⟨by decide, by decide, by decide, by decide,
    C2_bytes_truncated_view 2 2 [[1, 2, 3], [4, 5], [6, 7, 8, 9]]
      (by decide) (by decide) (by decide) (by decide)⟩

/-! ## The command -/

theorem drain_eq (env : Env) (ts : List CopyTask) :
    ∀ (k : Nat) (acc : Option Error),
      Cmd.drain env ts k acc =
        match acc with
        | some e => some e
        | none => firstNonNil ((List.range' k ts.length).map env.errch) := by
  induction ts with
  | nil =>
    intro k acc
    cases acc <;> simp [Cmd.drain, firstNonNil]
  | cons t ts ih =>
    intro k acc
    rw [Cmd.drain]
    simp only [ih]
    cases acc with
    | some e => simp
    | none =>
      cases h : env.errch k with
      | none => simp [h, List.range', firstNonNil]
      | some e => simp [h, List.range', firstNonNil]

theorem drain_received (env : Env) (ts : List CopyTask) :
    Cmd.drain env ts 0 none = firstNonNil (received env ts.length) := by
  rw [drain_eq, received, List.range_eq_range']

/-- A `Start` that returns no error has set `Process`. -/
theorem Start_ok_Process (env : Env) (c : Cmd) (w : World)
    (h : (c.Start env w).err = none) : ∃ p, (c.Start env w).c.Process = some p := by
  unfold Cmd.Start at h ⊢
  rcases hreg : env.isRegistered with ⟨b, e⟩
  rw [hreg] at h
  cases e with
  | some e => simp at h
  | none =>
    cases b with
    | false => simp at h
    | true =>
      simp only at h ⊢
      by_cases hp : c.Process.isSome = true
      · simp [hp] at h
      · simp only [hp] at h ⊢
        by_cases hd : (c.ctx.isSome && env.ctxDone) = true
        · simp [hd] at h
        · simp only [hd] at h ⊢
          cases hw : (Cmd.wire env c w).err with
          | some e => simp [hw] at h
          | none =>
            simp only [hw] at h ⊢
            cases hs : env.startProcess with
            | error e => simp [hs] at h
            | ok p =>
              simp only [hs]
              by_cases hg : (Cmd.wire env c w).c.goroutine.length > 0 <;>
                cases hc : (Cmd.wire env c w).c.ctx <;> simp [hg, hc]

theorem closed_closeDescriptors (ds1 ds2 : List Closer) (w : World) (d : Closer)
    (h : d ∈ ds1 ++ ds2) :
    (Cmd.closeDescriptors ds2 (Cmd.closeDescriptors ds1 w)).closed d := by
  simp only [World.closed, Cmd.closeDescriptors, List.mem_append, List.mem_map]
  rcases List.mem_append.mp h with h | h
  · exact Or.inl (Or.inr ⟨d, h, rfl⟩)
  · exact Or.inr ⟨d, h, rfl⟩

/-- A set-up loop that ends with an error has closed every descriptor of both lists. -/
theorem setupFds_error_closes (env : Env) (fs : List (Env → Cmd → World → Outcome Unit)) :
    ∀ (c : Cmd) (w : World), (Cmd.setupFds env fs c w).err ≠ none →
      ∀ d ∈ (Cmd.setupFds env fs c w).c.closeAfterStart
          ++ (Cmd.setupFds env fs c w).c.closeAfterWait,
        (Cmd.setupFds env fs c w).w.closed d := by
  induction fs with
  | nil =>
    intro c w h
    simp [Cmd.setupFds] at h
  | cons f fs ih =>
    intro c w h
    rw [Cmd.setupFds] at h ⊢
    cases hf : (f env c w).err with
    | some e =>
      simp only [hf]
      intro d hd
      exact closed_closeDescriptors _ _ _ d hd
    | none =>
      simp only [hf] at h ⊢
      exact ih _ _ h

/-- On a registered distro, a `Start` of an unstarted command that returns an error has
called `Close` on every descriptor that the two lists hold when it returns. -/
theorem Start_error_closes_registered (env : Env) (c : Cmd) (w : World)
    (hreg : env.isRegistered = (true, none)) (hnot : c.Process = none)
    (herr : (c.Start env w).err ≠ none) :
    ∀ d ∈ (c.Start env w).c.closeAfterStart ++ (c.Start env w).c.closeAfterWait,
      (c.Start env w).w.closed d := by
  unfold Cmd.Start at herr ⊢
  simp only [hreg, hnot, Option.isSome_none, Bool.false_eq_true, if_false] at herr ⊢
  by_cases hd : (c.ctx.isSome && env.ctxDone) = true
  · simp only [hd, if_true]
    intro d hdm
    exact closed_closeDescriptors _ _ _ d hdm
  · simp only [hd] at herr ⊢
    cases hw : (Cmd.wire env c w).err with
    | some e =>
      simp only [hw]
      exact setupFds_error_closes env _ c w (by rw [show Cmd.setupFds env _ c w = Cmd.wire env c w from rfl, hw]; simp)
    | none =>
      simp only [hw] at herr ⊢
      cases hs : env.startProcess with
      | error e =>
        simp only [hs]
        intro d hdm
        exact closed_closeDescriptors _ _ _ d hdm
      | ok p =>
        exfalso
        revert herr
        simp only [hs]
        by_cases hg : (Cmd.wire env c w).c.goroutine.length > 0 <;>
          cases hc : (Cmd.wire env c w).c.ctx <;> simp [hg, hc]

/-- C3: once the guards of `Wait` pass, the returned error follows a strict priority:
the recorded cancellation cause `ctxErr` if there is one (even when `Process.Wait`
failed or the exit status is not zero); else the error of `Process.Wait`, verbatim;
else, for a state that is not successful, an `*exec.ExitError` carrying exactly that
state; else the first non-nil copy-task error received; else nil. The recorded cause is
the one already in `ctxErr`, or the one the watcher stores while `Wait` is blocked. -/
theorem C3_wait_error_priority (env : Env) (c : Cmd) (w : World) (p : Process)
    (hstarted : c.Process = some p) (hfirst : c.finished = false) :
    (c.Wait env w).c.ctxErr =
        (if c.waitDone.isSome && env.watcherFires then some env.ctxErr else c.ctxErr) ∧
      (c.Wait env w).err =
        match (c.Wait env w).c.ctxErr with
        | some cause => some cause
        | none =>
          match env.processWait with
          | .error e => some e
          | .ok st =>
            if st.Success then firstNonNil (received env c.goroutine.length)
            else some (Error.exitError st Slice.nil) := by
  unfold Cmd.Wait
  simp only [hstarted, hfirst]
  by_cases hfire : (c.waitDone.isSome && env.watcherFires) = true
  · simp only [hfire, if_true, Cmd.watcher, hstarted]
    cases hwd : c.waitDone <;> simp
  · simp only [hfire]
    cases hwd : c.waitDone <;> cases hce : c.ctxErr <;> cases hpw : env.processWait <;>
      simp [drain_received] <;> split <;> simp_all

theorem C3_wait_error_priority_witness :
    ({ Cmd.sample with Process := some { Pid := 100 } } : Cmd).Process = some { Pid := 100 } ∧
      ({ Cmd.sample with Process := some { Pid := 100 } } : Cmd).finished = false ∧
      (Cmd.Wait { Env.calm with processWait := .ok { pid := 100, exitCode := 42 } }
          { Cmd.sample with Process := some { Pid := 100 } } {}).err
        = some (Error.exitError { pid := 100, exitCode := 42 } Slice.nil) :=
  ⟨rfl, rfl,
    (C3_wait_error_priority { Env.calm with processWait := .ok { pid := 100, exitCode := 42 } }
      { Cmd.sample with Process := some { Pid := 100 } } {} { Pid := 100 } rfl rfl).2⟩

/-- C4: for every `Cmd` whose `Process` is set (as a successful `Start` leaves it) and
whose distro is registered, `Start` returns the usage error `"wsl: already started"`;
the command and the world are the same as before the call: no stream is wired, the
launch primitive is not invoked, and `Process`, the stream slots, both closer lists,
the copy-task list and every other field are unchanged. -/
theorem C4_second_start_rejected (env : Env) (c : Cmd) (w : World) (p : Process)
    (hreg : env.isRegistered = (true, none)) (hstarted : c.Process = some p) :
    c.Start env w =
      { c := c, w := w, val := (), err := some (Error.errorsNew "wsl: already started") } := by
  unfold Cmd.Start
  simp [hreg, hstarted]

theorem C4_second_start_rejected_witness :
    Env.calm.isRegistered = (true, none) ∧
      (Cmd.sample.Start Env.calm {}).c.Process = some { Pid := 100 } ∧
      (Cmd.sample.Start Env.calm {}).c.Start Env.calm (Cmd.sample.Start Env.calm {}).w =
        { c := (Cmd.sample.Start Env.calm {}).c, w := (Cmd.sample.Start Env.calm {}).w,
          val := (), err := some (Error.errorsNew "wsl: already started") } :=
  ⟨rfl, rfl,
    C4_second_start_rejected Env.calm (Cmd.sample.Start Env.calm {}).c
      (Cmd.sample.Start Env.calm {}).w { Pid := 100 } rfl rfl⟩

/-- C5: `Wait` returns a usage error, without waiting on the process and without
changing any field, when the command was never started (`"wsl: not started"`) and when
`Wait` was already called (`"wsl: Wait was already called"`); for every `Cmd`, the
second of two `Wait` calls fails with one of these errors and leaves the command, so
also the `ProcessState` captured by the first call, and the world as the first call
left them. -/
theorem C5_wait_guards (env env2 : Env) (c : Cmd) (w : World) :
    (c.Process = none →
        c.Wait env w =
          { c := c, w := w, val := (), err := some (Error.errorsNew "wsl: not started") }) ∧
      (c.Process ≠ none → c.finished = true →
        c.Wait env w =
          { c := c, w := w, val := (),
            err := some (Error.errorsNew "wsl: Wait was already called") }) ∧
      (c.Wait env w).c.Wait env2 (c.Wait env w).w =
        { c := (c.Wait env w).c, w := (c.Wait env w).w, val := (),
          err := some (Error.errorsNew
            (if c.Process = none then "wsl: not started"
              else "wsl: Wait was already called")) } ∧
      ((c.Wait env w).c.Wait env2 (c.Wait env w).w).c.ProcessState
        = (c.Wait env w).c.ProcessState := by
  have h1 : c.Process = none →
      c.Wait env w =
        { c := c, w := w, val := (), err := some (Error.errorsNew "wsl: not started") } := by
    intro h
    unfold Cmd.Wait
    simp [h]
  have h2 : c.Process ≠ none → c.finished = true →
      c.Wait env w =
        { c := c, w := w, val := (),
          err := some (Error.errorsNew "wsl: Wait was already called") } := by
    intro hp hf
    obtain ⟨p, hp'⟩ := Option.ne_none_iff_exists'.mp hp
    unfold Cmd.Wait
    simp [hp', hf]
  have h3 : (c.Wait env w).c.Wait env2 (c.Wait env w).w =
      { c := (c.Wait env w).c, w := (c.Wait env w).w, val := (),
        err := some (Error.errorsNew
          (if c.Process = none then "wsl: not started"
            else "wsl: Wait was already called")) } := by
    cases hp : c.Process with
    | none =>
      rw [h1 hp]
      unfold Cmd.Wait
      simp [hp]
    | some p =>
      by_cases hf : c.finished = true
      · rw [h2 (by simp [hp]) hf]
        unfold Cmd.Wait
        simp [hp, hf]
      · have hfin : (c.Wait env w).c.finished = true ∧ (c.Wait env w).c.Process = some p := by
          unfold Cmd.Wait
          simp only [hp, hf]
          by_cases hfire : (c.waitDone.isSome && env.watcherFires) = true
          · simp only [hfire, if_true, Cmd.watcher, hp]
            cases hwd : c.waitDone <;> simp
          · simp only [hfire]
            cases hwd : c.waitDone <;> cases hce : c.ctxErr <;> cases hpw : env.processWait <;>
              simp <;> split <;> simp_all
        generalize c.Wait env w = r at hfin ⊢
        unfold Cmd.Wait
        simp [hfin.1, hfin.2]
  refine ⟨h1, h2, h3, ?_⟩
  rw [h3]

theorem C5_wait_guards_witness :
    (Cmd.sample.Wait Env.calm {}).err = some (Error.errorsNew "wsl: not started") ∧
      (((Cmd.sample.Start Env.calm {}).c.Wait Env.calm {}).c.Wait Env.calm
          ((Cmd.sample.Start Env.calm {}).c.Wait Env.calm {}).w).err
        = some (Error.errorsNew "wsl: Wait was already called") :=
  ⟨congrArg Outcome.err ((C5_wait_guards Env.calm Env.calm Cmd.sample {}).1 rfl),
    congrArg Outcome.err
      (C5_wait_guards Env.calm Env.calm (Cmd.sample.Start Env.calm {}).c {}).2.2.1⟩

/-- C6 as stated fails: for the sample command on a registered distro whose context is
done when `Start` is called, `Start` reports the cancellation cause, but the `Wait` that
follows reports the usage error `"wsl: not started"`, not the cancellation cause. -/
theorem C6_wait_after_cancelled_start :
    Cmd.sample.Process = none ∧ Env.cancelled.isRegistered = (true, none) ∧
      Cmd.sample.ctx = some 7 ∧ Env.cancelled.ctxDone = true ∧
      (Cmd.sample.Start Env.cancelled {}).err = some Env.cancelled.ctxErr ∧
      ((Cmd.sample.Start Env.cancelled {}).c.Wait Env.cancelled
          (Cmd.sample.Start Env.cancelled {}).w).err
        = some (Error.errorsNew "wsl: not started") ∧
      ((Cmd.sample.Start Env.cancelled {}).c.Wait Env.cancelled
          (Cmd.sample.Start Env.cancelled {}).w).err
        ≠ some Env.cancelled.ctxErr := by
  refine ⟨rfl, rfl, rfl, rfl, rfl, rfl, ?_⟩
  decide

/-- C6, amended: for every unstarted `Cmd` on a registered distro whose context is done
when `Start` is called, `Start` returns the cancellation cause `ctx.Err()` and leaves the
command as it was (`Process` unset, no stream wired, no copy task added); all it does to
the outside is to call `Close` on every descriptor of the release-after-start list and
then of the release-after-wait list, so that the launch primitive is not invoked and no
copy task or watcher is spawned; `Run` returns the cancellation cause too; a `Wait`
called afterwards returns the usage error `"wsl: not started"`. -/
theorem C6_cancelled_start (env envW : Env) (c : Cmd) (w : World) (x : Ctx)
    (hreg : env.isRegistered = (true, none)) (hnot : c.Process = none)
    (hctx : c.ctx = some x) (hdone : env.ctxDone = true) :
    (c.Start env w).err = some env.ctxErr ∧
      (c.Start env w).c = c ∧
      (c.Start env w).w =
        { w with
          log := w.log ++ c.closeAfterStart.map Event.close ++ c.closeAfterWait.map Event.close } ∧
      (∀ d ∈ c.closeAfterStart ++ c.closeAfterWait, (c.Start env w).w.closed d) ∧
      (c.Run env envW w).err = some env.ctxErr ∧
      ((c.Start env w).c.Wait envW (c.Start env w).w).err
        = some (Error.errorsNew "wsl: not started") := by
  have hs : c.Start env w =
      { c := c
        w := { w with
          log := w.log ++ c.closeAfterStart.map Event.close ++ c.closeAfterWait.map Event.close }
        val := (), err := some env.ctxErr } := by
    unfold Cmd.Start
    simp [hreg, hnot, hctx, hdone, Cmd.closeDescriptors]
  refine ⟨by rw [hs], by rw [hs], by rw [hs], ?_, ?_, ?_⟩
  · intro d hd
    rw [hs]
    simp only [World.closed, List.mem_append, List.mem_map]
    rcases List.mem_append.mp hd with h | h
    · exact Or.inl (Or.inr ⟨d, h, rfl⟩)
    · exact Or.inr ⟨d, h, rfl⟩
  · unfold Cmd.Run
    rw [hs]
  · rw [hs]
    unfold Cmd.Wait
    simp [hnot]

theorem C6_cancelled_start_witness :
    Env.cancelled.isRegistered = (true, none) ∧
      (Cmd.sample.StdinPipe Env.calm {}).c.Process = none ∧
      (Cmd.sample.StdinPipe Env.calm {}).c.ctx = some 7 ∧ Env.cancelled.ctxDone = true ∧
      ((Cmd.sample.StdinPipe Env.calm {}).c.Start Env.cancelled
          (Cmd.sample.StdinPipe Env.calm {}).w).w.log
        = [Event.pipe 0 1, Event.close (Closer.file 0), Event.close (Closer.closeOnce 1)] :=
  ⟨rfl, rfl, rfl, rfl,
    congrArg World.log
      (C6_cancelled_start Env.cancelled Env.calm (Cmd.sample.StdinPipe Env.calm {}).c
        (Cmd.sample.StdinPipe Env.calm {}).w 7 rfl rfl rfl rfl).2.2.1⟩

/-- C8: each of `StdinPipe`, `StdoutPipe` and `StderrPipe` returns a usage error, creates
no pipe, and leaves the command (stream slots, closer lists and every other field) and
the world as they were, whenever its stream is already set or the process was already
started; in particular `StdinPipe` called after a successful `Start` fails and alters
nothing. -/
theorem C8_pipe_accessors_guard (env : Env) (c : Cmd) (w : World) :
    ((c.Stdin ≠ none ∨ c.Process ≠ none) →
        c.StdinPipe env w =
          { c := c, w := w, val := none,
            err := some (Error.errorsNew
              (if c.Stdin ≠ none then "wsl: Stdin already set"
                else "wsl: StdinPipe after process started")) }) ∧
      ((c.Stdout ≠ none ∨ c.Process ≠ none) →
        c.StdoutPipe env w =
          { c := c, w := w, val := none,
            err := some (Error.errorsNew
              (if c.Stdout ≠ none then "wsl: Stdout already set"
                else "wsl: StdoutPipe after process started")) }) ∧
      ((c.Stderr ≠ none ∨ c.Process ≠ none) →
        c.StderrPipe env w =
          { c := c, w := w, val := none,
            err := some (Error.errorsNew
              (if c.Stderr ≠ none then "wsl: Stderr already set"
                else "wsl: StderrPipe after process started")) }) ∧
      (∀ (envS : Env) (c0 : Cmd) (w0 : World),
        (c0.Start envS w0).err = none → c = (c0.Start envS w0).c →
          (c.StdinPipe env w).err ≠ none ∧ (c.StdinPipe env w).val = none ∧
            (c.StdinPipe env w).c = c ∧ (c.StdinPipe env w).w = w) := by
  have hin : (c.Stdin ≠ none ∨ c.Process ≠ none) →
      c.StdinPipe env w =
        { c := c, w := w, val := none,
          err := some (Error.errorsNew
            (if c.Stdin ≠ none then "wsl: Stdin already set"
              else "wsl: StdinPipe after process started")) } := by
    intro h
    unfold Cmd.StdinPipe
    cases hs : c.Stdin with
    | some s => simp
    | none =>
      cases hp : c.Process with
      | some p => simp
      | none => simp [hs, hp] at h
  refine ⟨hin, ?_, ?_, ?_⟩
  · intro h
    unfold Cmd.StdoutPipe
    cases hs : c.Stdout with
    | some s => simp
    | none =>
      cases hp : c.Process with
      | some p => simp
      | none => simp [hs, hp] at h
  · intro h
    unfold Cmd.StderrPipe
    cases hs : c.Stderr with
    | some s => simp
    | none =>
      cases hp : c.Process with
      | some p => simp
      | none => simp [hs, hp] at h
  · intro envS c0 w0 hok hc
    obtain ⟨p, hp⟩ := Start_ok_Process envS c0 w0 hok
    rw [← hc] at hp
    rw [hin (Or.inr (by simp [hp]))]
    simp

theorem C8_pipe_accessors_guard_witness :
    ((Cmd.sample.Start Env.calm {}).c.StdinPipe Env.calm (Cmd.sample.Start Env.calm {}).w).err
        = some (Error.errorsNew "wsl: StdinPipe after process started") ∧
      ((Cmd.sample.Start Env.calm {}).c.StdinPipe Env.calm (Cmd.sample.Start Env.calm {}).w).c
        = (Cmd.sample.Start Env.calm {}).c :=
  ⟨congrArg Outcome.err
      ((C8_pipe_accessors_guard Env.calm (Cmd.sample.Start Env.calm {}).c
        (Cmd.sample.Start Env.calm {}).w).1 (Or.inr (by decide))),
    ((C8_pipe_accessors_guard Env.calm (Cmd.sample.Start Env.calm {}).c
        (Cmd.sample.Start Env.calm {}).w).2.2.2 Env.calm Cmd.sample {} rfl rfl).2.2.1⟩

/-- C9 at a failing input: `StdinPipe` on the sample command registers both ends of its
pipe, the read end in the release-after-start list and the write end in the
release-after-wait list; `Start` on a distro that is not registered then returns
`"wsl: distro is not registered"` and calls `Close` on neither of them. -/
theorem C9_unregistered_start_closes_nothing :
    (Cmd.sample.StdinPipe Env.calm {}).c.Process = none ∧
      (Cmd.sample.StdinPipe Env.calm {}).c.closeAfterStart = [Closer.file 0] ∧
      (Cmd.sample.StdinPipe Env.calm {}).c.closeAfterWait = [Closer.closeOnce 1] ∧
      ((Cmd.sample.StdinPipe Env.calm {}).c.Start Env.unregistered
          (Cmd.sample.StdinPipe Env.calm {}).w).err
        = some (Error.errorsNew "wsl: distro is not registered") ∧
      ¬ ((Cmd.sample.StdinPipe Env.calm {}).c.Start Env.unregistered
          (Cmd.sample.StdinPipe Env.calm {}).w).w.closed (Closer.file 0) ∧
      ¬ ((Cmd.sample.StdinPipe Env.calm {}).c.Start Env.unregistered
          (Cmd.sample.StdinPipe Env.calm {}).w).w.closed (Closer.closeOnce 1) := by
  refine ⟨rfl, rfl, rfl, rfl, ?_, ?_⟩ <;> decide

/-- C10: `Output` returns nil bytes and `"wsl: Stdout already set"` whenever `Stdout` is
non-nil; `CombinedOutput` returns nil bytes and a usage error whenever `Stdout` or
`Stderr` is non-nil, the `Stdout` check coming first; in these cases the command is not
started, and the command and the world are as they were. -/
theorem C10_output_guards (fuel : Nat) (envS envW : Env) (c : Cmd) (w : World) :
    (c.Stdout ≠ none →
        c.Output fuel envS envW w =
          .ok { c := c, w := w, val := Slice.nil,
                err := some (Error.errorsNew "wsl: Stdout already set") }) ∧
      (c.Stdout ≠ none →
        c.CombinedOutput envS envW w =
          { c := c, w := w, val := Slice.nil,
            err := some (Error.errorsNew "wsl: Stdout already set") }) ∧
      (c.Stdout = none → c.Stderr ≠ none →
        c.CombinedOutput envS envW w =
          { c := c, w := w, val := Slice.nil,
            err := some (Error.errorsNew "wsl: Stderr already set") }) := by
  refine ⟨?_, ?_, ?_⟩
  · intro h
    obtain ⟨s, hs⟩ := Option.ne_none_iff_exists'.mp h
    unfold Cmd.Output
    simp [hs]
  · intro h
    obtain ⟨s, hs⟩ := Option.ne_none_iff_exists'.mp h
    unfold Cmd.CombinedOutput
    simp [hs]
  · intro h1 h2
    obtain ⟨s, hs⟩ := Option.ne_none_iff_exists'.mp h2
    unfold Cmd.CombinedOutput
    simp [h1, hs]

theorem C10_output_guards_witness :
    (Cmd.Output 2 Env.calm Env.calm { Cmd.sample with Stdout := some (Stream.buffer 3) } {}
        = .ok { c := { Cmd.sample with Stdout := some (Stream.buffer 3) }, w := {},
                val := Slice.nil, err := some (Error.errorsNew "wsl: Stdout already set") }) ∧
      (Cmd.CombinedOutput Env.calm Env.calm
          { Cmd.sample with Stderr := some (Stream.buffer 3) } {}
        = { c := { Cmd.sample with Stderr := some (Stream.buffer 3) }, w := {},
            val := Slice.nil, err := some (Error.errorsNew "wsl: Stderr already set") }) :=
  ⟨(C10_output_guards 2 Env.calm Env.calm
      { Cmd.sample with Stdout := some (Stream.buffer 3) } {}).1 (by decide),
    (C10_output_guards 2 Env.calm Env.calm
      { Cmd.sample with Stderr := some (Stream.buffer 3) } {}).2.2 rfl (by decide)⟩

/-- After any sequence of `Write` calls on a fresh saver of capacity `C ≥ 0` the saver
is in the state described by `SaverInv` for the concatenation of the chunks. -/
theorem writes_fresh (C : Int) (fuel : Nat) (ps : List (List Byte))
    (hC : 0 ≤ C) (hfuel : 2 ≤ fuel) :
    ∃ w, prefixSuffixSaver.writes fuel { N := C } ps = .ok w ∧
      SaverInv C.toNat ps.flatten w := by
  obtain ⟨n, rfl⟩ : ∃ n : Nat, C = (n : Int) := ⟨C.toNat, by omega⟩
  obtain ⟨w, hw, hinv⟩ := writes_inv n fuel hfuel ps [] _ (SaverInv.fresh n)
  rw [List.nil_append] at hinv
  exact ⟨w, hw, by simpa using hinv⟩

/-- Lengths of the two retained regions and position of the ring offset. -/
theorem SaverInv.lens (n : Nat) (a : List Byte) (w : prefixSuffixSaver) (hw : SaverInv n a w) :
    w.prefix_.len = ((min n a.length : Nat) : Int) ∧
      w.suffix.len = ((min (a.length - n) n : Nat) : Int) ∧
      0 ≤ w.suffixOff ∧ w.suffixOff ≤ w.suffix.len := by
  obtain ⟨hN, hpre, hskip, hsuf⟩ := hw
  have hplen : w.prefix_.len = ((min n a.length : Nat) : Int) := by
    simp [Slice.len, hpre, List.length_take]
  refine ⟨hplen, ?_⟩
  rcases hsuf with ⟨hn, hT, hdata, hoff, hnil⟩ | ⟨hn, hT, ⟨s, hs, hlen, h0, hlt, hrot⟩, hoff⟩ |
    ⟨hn, hnil, hoff⟩
  · have hslen : w.suffix.len = ((a.length - n : Nat) : Int) := by
      simp [Slice.len, hdata, List.length_drop]
    rw [hslen, hoff]
    refine ⟨?_, le_refl _, ?_⟩ <;> omega
  · have hslen : w.suffix.len = (n : Int) := by
      simp [Slice.len, hs, Slice.data, hlen]
    rw [hslen]
    refine ⟨?_, h0, ?_⟩ <;> omega
  · have hslen : w.suffix.len = 0 := by simp [Slice.len, hnil, Slice.data]
    rw [hslen, hoff, hn]
    simp

/-- C12: for every capacity `C ≥ 0` and every sequence of `Write` calls on a fresh
`prefixSuffixSaver{N: C}`, every call returns and afterwards `len(prefix) ≤ C` and
`len(suffix) ≤ C` (at most `2C` bytes are retained), the ring offset lies inside the
suffix, `Bytes()` returns, and `len(Bytes()) ≤ 2C + marker-length`, the length of the
omission marker for the current skipped count. The sequence is arbitrary, so this holds
after each call. -/
theorem C12_saver_bounds (C : Int) (fuel : Nat) (ps : List (List Byte))
    (hC : 0 ≤ C) (hfuel : 2 ≤ fuel) :
    ∃ w b, prefixSuffixSaver.writes fuel { N := C } ps = .ok w ∧
      w.prefix_.len ≤ C ∧ w.suffix.len ≤ C ∧
      0 ≤ w.suffixOff ∧ w.suffixOff ≤ w.suffix.len ∧
      w.Bytes = .ok b ∧ b.len ≤ 2 * C + ((marker w.skipped).length : Int) := by
  obtain ⟨w, hw, hinv⟩ := writes_fresh C fuel ps hC hfuel
  obtain ⟨hpl, hsl, h0, hoff⟩ := SaverInv.lens _ _ _ hinv
  obtain ⟨b, hb, hdata⟩ := Bytes_spec _ _ _ hinv
  refine ⟨w, b, hw, by omega, by omega, h0, hoff, hb, ?_⟩
  have hskip := hinv.hskip
  simp only [Slice.len, hdata]
  by_cases h1 : ps.flatten.length ≤ C.toNat + C.toNat
  · rw [if_pos h1]
    omega
  · rw [if_neg h1]
    by_cases h2 : C.toNat = 0
    · rw [if_pos h2]
      simp only [List.length_nil]
      omega
    · rw [if_neg h2]
      have e : wrapInt64 ((ps.flatten.length : Int) - 2 * ((C.toNat : Nat) : Int))
          = w.skipped := by
        rw [hskip]
        congr 1
        omega
      rw [e]
      simp only [Slice.len] at hsl
      by_cases h3 : w.skipped = 0
      · rw [if_pos h3]
        simp only [List.length_append, List.length_take, Nat.cast_add]
        omega
      · rw [if_neg h3]
        simp only [List.length_append, List.length_take, List.length_drop, Nat.cast_add]
        omega

theorem C12_saver_bounds_witness :
    (0 : Int) ≤ 2 ∧ 2 ≤ 2 ∧
      ∃ w b, prefixSuffixSaver.writes 2 { N := 2 } [[1, 2, 3], [4, 5], [6, 7, 8, 9]] = .ok w ∧
        w.prefix_.len ≤ 2 ∧ w.suffix.len ≤ 2 ∧
        0 ≤ w.suffixOff ∧ w.suffixOff ≤ w.suffix.len ∧
        w.Bytes = .ok b ∧ b.len ≤ 2 * 2 + ((marker w.skipped).length : Int) :=
  ⟨by decide, by decide,
    C12_saver_bounds 2 2 [[1, 2, 3], [4, 5], [6, 7, 8, 9]] (by decide) (by decide)⟩

/-- C13: for every saver of capacity `N ≥ 0` reached from a fresh one by any sequence of
`Write` calls and every byte slice `p`, `Write(p)` does not fail: no slice expression is
out of range, the ring loop ends within two iterations (fuel 2 is enough, and so is any
larger fuel), and the count returned is `len(p)`; the error returned is the nil of the
only `return` of the source, which leaves no error to return in the embedding. -/
theorem C13_write_never_fails (C : Int) (fuel : Nat) (ps : List (List Byte)) (p : List Byte)
    (hC : 0 ≤ C) (hfuel : 2 ≤ fuel) :
    ∃ w w' w'', prefixSuffixSaver.writes fuel { N := C } ps = .ok w ∧
      w.Write 2 p = .ok (w', (p.length : Int)) ∧
      w.Write fuel p = .ok (w'', (p.length : Int)) := by
  obtain ⟨w, hw, hinv⟩ := writes_fresh C fuel ps hC hfuel
  obtain ⟨w2, h2, -⟩ := Write_inv _ 2 _ p w (le_refl 2) hinv
  obtain ⟨wf, hf, -⟩ := Write_inv _ fuel _ p w hfuel hinv
  exact ⟨w, w2, wf, hw, h2, hf⟩

theorem C13_write_never_fails_witness :
    (0 : Int) ≤ 3 ∧ 2 ≤ 2 ∧
      ∃ w w' w'', prefixSuffixSaver.writes 2 { N := 3 } [[1, 2, 3], [4, 5], [6, 7, 8, 9]] = .ok w ∧
        w.Write 2 [10, 11] = .ok (w', (([10, 11] : List Byte).length : Int)) ∧
        w.Write 2 [10, 11] = .ok (w'', (([10, 11] : List Byte).length : Int)) :=
  ⟨by decide, by decide,
    C13_write_never_fails 3 2 [[1, 2, 3], [4, 5], [6, 7, 8, 9]] [10, 11] (by decide) (by decide)⟩

/-- C16 as stated fails in two cases. At capacity 0: after `Write([1, 2, 3])` on a fresh
`prefixSuffixSaver{N: 0}` three bytes were skipped, the suffix is still nil, and
`Bytes()` returns the (nil) prefix through its first test, with no omission marker. When
the `int64` counter of skipped bytes has wrapped round to zero: a fresh saver of capacity
`2^29` receives `2^34 + 1` chunks of `2^30` zero bytes, `2^64` bytes more than `2C`; the
first chunk fills the prefix and the suffix and each later chunk adds `2^30` to the
counter, which is `0` again, and `Bytes()` returns prefix and suffix through its test
`w.skipped == 0`, with no marker between them. -/
theorem C16_marker_absent :
    ((0 : Int) ≤ 0 ∧ 2 * (0 : Int) < (([[1, 2, 3]] : List (List Byte)).flatten.length : Int) ∧
      prefixSuffixSaver.writes 2 { N := 0 } [[1, 2, 3]] = .ok { N := 0, skipped := 3 } ∧
      ({ N := 0, skipped := 3 } : prefixSuffixSaver).Bytes = .ok Slice.nil ∧
      ({ N := 0, skipped := 3 } : prefixSuffixSaver).Bytes
        ≠ .ok (Slice.mk (([] : List Byte) ++ marker 3 ++ []))) ∧
    ((1 : Int) ≤ 536870912 ∧
      ((zeros 17179869185 1073741824).flatten.length : Int) - 2 * 536870912
        = 18446744073709551616 ∧
      (∃ w, prefixSuffixSaver.writes 2 { N := 536870912 } (zeros 17179869185 1073741824)
          = .ok w ∧ w.skipped = 0) ∧
      savedBytes 2 536870912 (zeros 17179869185 1073741824) = .ok
        (List.replicate 536870912 0 ++ List.replicate 536870912 0) ∧
      savedBytes 2 536870912 (zeros 17179869185 1073741824) ≠ .ok
        ((zeros 17179869185 1073741824).flatten.take 536870912
          ++ marker (((zeros 17179869185 1073741824).flatten.length : Int) - 2 * 536870912)
          ++ (zeros 17179869185 1073741824).flatten.drop
            ((zeros 17179869185 1073741824).flatten.length - 536870912))) := by
  have hlen : ((zeros 17179869185 1073741824).flatten.length : Int)
      = 18446744074783293440 := by
    rw [zeros_length]
    norm_num
  have hwrap :
      wrapInt64 (((17179869185 * 1073741824 : Nat) : Int) - 2 * ((536870912 : Nat) : Int))
        = 0 := by decide
  refine ⟨⟨by decide, by decide, by decide, by decide, by decide⟩, by decide, ?_, ?_, ?_, ?_⟩
  · rw [hlen]
    decide
  · obtain ⟨w, hw, hsk, -⟩ := zeros_saver 536870912 2 17179869185 1073741824 (by decide)
      (by decide) (by norm_num)
    exact ⟨w, hw, by rw [hsk, hwrap]⟩
  · have h := savedBytes_zeros 536870912 2 17179869185 1073741824 (by decide) (by decide)
      (by norm_num)
    rw [hwrap, if_pos rfl] at h
    exact h
  · exact savedBytes_zeros_ne 536870912 2 17179869185 1073741824 (by decide) (by decide)
      (by norm_num) _ (fun hz => absurd hwrap hz)

/-- C16, amended: for every capacity `C ≥ 1` and every sequence of `Write` calls on a
fresh `prefixSuffixSaver{N: C}` in which at least one byte and fewer than `2^63` bytes
were skipped (the total exceeds `2C` by less than `2^63`), `Bytes()` returns the prefix,
then the omission marker for the number of skipped bytes, then the suffix read from the
ring offset round to it; the skipped count is positive and equal to the total minus
`2C`. -/
theorem C16_marker_when_skipped (C : Int) (fuel : Nat) (ps : List (List Byte))
    (hC : 1 ≤ C) (hfuel : 2 ≤ fuel) (htotal : 2 * C < (ps.flatten.length : Int))
    (hbound : (ps.flatten.length : Int) - 2 * C < 9223372036854775808) :
    ∃ w, prefixSuffixSaver.writes fuel { N := C } ps = .ok w ∧
      0 < w.skipped ∧ w.skipped = (ps.flatten.length : Int) - 2 * C ∧
      w.Bytes = .ok (Slice.mk (w.prefix_.data ++ marker w.skipped
        ++ w.suffix.data.drop w.suffixOff.toNat ++ w.suffix.data.take w.suffixOff.toNat)) := by
  obtain ⟨w, hw, hinv⟩ := writes_fresh C fuel ps (by omega) hfuel
  obtain ⟨hN, hpre, hskip, hsuf⟩ := hinv
  rw [wrapInt64_of_range _ (by omega) (by omega)] at hskip
  refine ⟨w, hw, by omega, by omega, ?_⟩
  rcases hsuf with ⟨hn, hT, -⟩ | ⟨hn, hT, ⟨s, hs, hlen, h0, hlt, hrot⟩, hoff⟩ | ⟨hn, -⟩
  · omega
  · have hnn : w.suffix.isNil = false := by rw [hs]; rfl
    have hsd : w.suffix.data = s := by rw [hs]; rfl
    have hsk : ¬ w.skipped = 0 := by omega
    have e1 : sliceFrom s w.suffixOff = .ok (s.drop w.suffixOff.toNat) := by
      have hh := sliceFrom_ok s w.suffixOff.toNat (by omega)
      rwa [Int.toNat_of_nonneg h0] at hh
    have e2 : sliceTo s w.suffixOff = .ok (s.take w.suffixOff.toNat) := by
      have hh := sliceTo_ok s w.suffixOff.toNat (by omega)
      rwa [Int.toNat_of_nonneg h0] at hh
    unfold prefixSuffixSaver.Bytes
    simp only [hnn, hsk, hsd, e1, e2, if_false, bind, Except.bind, pure, Except.pure]
    rfl
  · omega

theorem C16_marker_when_skipped_witness :
    (1 : Int) ≤ 2 ∧ 2 ≤ 2 ∧
      2 * (2 : Int) < (([[1, 2, 3], [4, 5], [6, 7, 8, 9]] : List (List Byte)).flatten.length : Int) ∧
      (([[1, 2, 3], [4, 5], [6, 7, 8, 9]] : List (List Byte)).flatten.length : Int) - 2 * 2
        < 9223372036854775808 ∧
      ∃ w, prefixSuffixSaver.writes 2 { N := 2 } [[1, 2, 3], [4, 5], [6, 7, 8, 9]] = .ok w ∧
        0 < w.skipped ∧
        w.skipped
          = (([[1, 2, 3], [4, 5], [6, 7, 8, 9]] : List (List Byte)).flatten.length : Int) - 2 * 2 ∧
        w.Bytes = .ok (Slice.mk (w.prefix_.data ++ marker w.skipped
          ++ w.suffix.data.drop w.suffixOff.toNat ++ w.suffix.data.take w.suffixOff.toNat)) :=
  ⟨by decide, by decide, by decide, by decide,
    C16_marker_when_skipped 2 2 [[1, 2, 3], [4, 5], [6, 7, 8, 9]]
      (by decide) (by decide) (by decide) (by decide)⟩

/-- C17 as stated fails once the `int64` counter of skipped bytes overflows. A fresh
saver of capacity `2^29` receives `2^33 + 1` chunks of `2^30` zero bytes: `2^63 + 2^30`
bytes in all. The first chunk fills the prefix and the suffix and each later chunk adds
`2^30` to the counter. Prefix and suffix hold `2^29` bytes each, and the counter has
wrapped round to `-2^63`: the three do not add up to the bytes written, and the counter
is not `max(0, total - 2N) = 2^63`. -/
theorem C17_skipped_wraps :
    (0 : Int) ≤ 536870912 ∧
      ((zeros 8589934593 1073741824).flatten.length : Int) = 9223372037928517632 ∧
      ∃ w, prefixSuffixSaver.writes 2 { N := 536870912 } (zeros 8589934593 1073741824)
          = .ok w ∧
        w.skipped = -9223372036854775808 ∧
        w.prefix_.len = 536870912 ∧ w.suffix.len = 536870912 ∧
        w.skipped + w.prefix_.len + w.suffix.len
          ≠ ((zeros 8589934593 1073741824).flatten.length : Int) ∧
        w.skipped
          ≠ max 0 (((zeros 8589934593 1073741824).flatten.length : Int) - 2 * 536870912) := by
  have hlen : ((zeros 8589934593 1073741824).flatten.length : Int) = 9223372037928517632 := by
    rw [zeros_length]
    norm_num
  have hwrap : wrapInt64 (((8589934593 * 1073741824 : Nat) : Int) - 2 * ((536870912 : Nat) : Int))
      = -9223372036854775808 := by decide
  obtain ⟨w, hw, hsk, hpre, hsuf, -⟩ := zeros_saver 536870912 2 8589934593 1073741824
    (by decide) (by decide) (by norm_num)
  rw [hwrap] at hsk
  have hpl : w.prefix_.len = 536870912 := by
    rw [Slice.len, hpre, List.length_replicate]
    rfl
  have hsl : w.suffix.len = 536870912 := by
    rw [hsuf, Slice.len, Slice.data, List.length_replicate]
    rfl
  refine ⟨by decide, hlen, w, hw, hsk, hpl, hsl, ?_, ?_⟩
  · rw [hsk, hpl, hsl, hlen]
    decide
  · rw [hsk, hlen]
    decide

/-- C17, amended: byte accounting of `prefixSuffixSaver`: for every capacity `N ≥ 0` and
every sequence of `Write` calls on a fresh saver (so after each call) whose total exceeds
`2N` by less than `2^63` (so that the `int64` counter of skipped bytes has not
overflowed), `skipped + len(prefix) + len(suffix)` is the number of bytes written so far;
hence `skipped = max(0, total - 2N)`, and `skipped > 0` implies that the prefix and the
suffix hold exactly `N` bytes each. -/
theorem C17_byte_accounting (N : Int) (fuel : Nat) (ps : List (List Byte))
    (hN : 0 ≤ N) (hfuel : 2 ≤ fuel)
    (hbound : (ps.flatten.length : Int) - 2 * N < 9223372036854775808) :
    ∃ w, prefixSuffixSaver.writes fuel { N := N } ps = .ok w ∧
      w.skipped + w.prefix_.len + w.suffix.len = (ps.flatten.length : Int) ∧
      w.skipped = max 0 ((ps.flatten.length : Int) - 2 * N) ∧
      (0 < w.skipped → w.prefix_.len = N ∧ w.suffix.len = N) := by
  obtain ⟨w, hw, hinv⟩ := writes_fresh N fuel ps hN hfuel
  obtain ⟨hpl, hsl, -, -⟩ := SaverInv.lens _ _ _ hinv
  have hskip := hinv.hskip
  rw [wrapInt64_of_range _ (by omega) (by omega)] at hskip
  refine ⟨w, hw, by omega, by omega, fun h => ⟨by omega, by omega⟩⟩

theorem C17_byte_accounting_witness :
    (0 : Int) ≤ 2 ∧ 2 ≤ 2 ∧
      (([[1, 2, 3], [4, 5], [6, 7, 8, 9]] : List (List Byte)).flatten.length : Int) - 2 * 2
        < 9223372036854775808 ∧
      ∃ w, prefixSuffixSaver.writes 2 { N := 2 } [[1, 2, 3], [4, 5], [6, 7, 8, 9]] = .ok w ∧
        w.skipped + w.prefix_.len + w.suffix.len
          = (([[1, 2, 3], [4, 5], [6, 7, 8, 9]] : List (List Byte)).flatten.length : Int) ∧
        w.skipped
          = max 0 ((([[1, 2, 3], [4, 5], [6, 7, 8, 9]] : List (List Byte)).flatten.length : Int)
              - 2 * 2) ∧
        (0 < w.skipped → w.prefix_.len = 2 ∧ w.suffix.len = 2) :=
  ⟨by decide, by decide, by decide,
    C17_byte_accounting 2 2 [[1, 2, 3], [4, 5], [6, 7, 8, 9]] (by decide) (by decide)
      (by decide)⟩

/-! ## The descriptor resolvers -/

/-- The test of the resolvers passes a native pipe file through. -/
theorem pipeFile_pipe (env : Env) (f : Fd)
    (h : env.fileType f = (FileType.fileTypePipe, none)) :
    pipeFile env (Stream.file f) = some f := by
  simp only [pipeFile, h]

/-- The test of the resolvers passes nothing else through: not a stream that is no
`*os.File`, and not a file whose type is not known to be a pipe. -/
theorem pipeFile_other (env : Env) (s : Stream)
    (h : ∀ f : Fd, s = Stream.file f → env.fileType f ≠ (FileType.fileTypePipe, none)) :
    pipeFile env s = none := by
  cases s with
  | file g =>
    have hg := h g rfl
    show (match env.fileType g with
      | (FileType.fileTypePipe, none) => some g
      | _ => none) = none
    split
    · next heq => exact absurd heq hg
    · rfl
  | buffer _ => rfl
  | saver _ => rfl
  | other _ => rfl
  | uncomparable _ => rfl

/-- C14: the descriptor resolvers, when they succeed, keep the books by case. For a nil
stream they return a freshly opened null-device handle and append it to the
release-after-start list only. For a stream that is a native pipe file (an `*os.File`
for which `fileType` returns `fileTypePipe` and no error) they return that same handle
and change nothing. For any other stream (no `*os.File`, or a file for which `fileType`
fails or returns another type) they create one pipe, append the process-side end (the
read end for `readerDescriptor`, the write end for `writerDescriptor`) to
release-after-start and the other end to release-after-wait, append exactly one copy
task, and return the process-side end. Every descriptor created is thus appended to
exactly one of the two lists; all other fields are unchanged. -/
theorem C14_resolver_bookkeeping (env : Env) (c : Cmd) (w : World) :
    ((c.readerDescriptor env w none).err = none →
        c.readerDescriptor env w none =
          { c := { c with closeAfterStart := c.closeAfterStart ++ [Closer.file w.nextFd] },
            w := { w with nextFd := w.nextFd + 1,
                          log := w.log ++ [Event.openDevNull w.nextFd false] },
            val := some w.nextFd, err := none }) ∧
      ((c.writerDescriptor env w none).err = none →
        c.writerDescriptor env w none =
          { c := { c with closeAfterStart := c.closeAfterStart ++ [Closer.file w.nextFd] },
            w := { w with nextFd := w.nextFd + 1,
                          log := w.log ++ [Event.openDevNull w.nextFd true] },
            val := some w.nextFd, err := none }) ∧
      (∀ (f : Fd), env.fileType f = (FileType.fileTypePipe, none) →
        c.readerDescriptor env w (some (Stream.file f))
            = { c := c, w := w, val := some f, err := none } ∧
          c.writerDescriptor env w (some (Stream.file f))
            = { c := c, w := w, val := some f, err := none }) ∧
      (∀ (s : Stream),
        (∀ f : Fd, s = Stream.file f → env.fileType f ≠ (FileType.fileTypePipe, none)) →
        (c.readerDescriptor env w (some s)).err = none →
          c.readerDescriptor env w (some s) =
            { c := { c with
                closeAfterStart := c.closeAfterStart ++ [Closer.file w.nextFd]
                closeAfterWait := c.closeAfterWait ++ [Closer.file (w.nextFd + 1)]
                goroutine := c.goroutine ++ [CopyTask.toProcess s (w.nextFd + 1)] },
              w := { w with nextFd := w.nextFd + 2,
                            log := w.log ++ [Event.pipe w.nextFd (w.nextFd + 1)] },
              val := some w.nextFd, err := none }) ∧
      (∀ (s : Stream),
        (∀ f : Fd, s = Stream.file f → env.fileType f ≠ (FileType.fileTypePipe, none)) →
        (c.writerDescriptor env w (some s)).err = none →
          c.writerDescriptor env w (some s) =
            { c := { c with
                closeAfterStart := c.closeAfterStart ++ [Closer.file (w.nextFd + 1)]
                closeAfterWait := c.closeAfterWait ++ [Closer.file w.nextFd]
                goroutine := c.goroutine ++ [CopyTask.fromProcess s w.nextFd] },
              w := { w with nextFd := w.nextFd + 2,
                            log := w.log ++ [Event.pipe w.nextFd (w.nextFd + 1)] },
              val := some (w.nextFd + 1), err := none }) ∧
      Closer.file w.nextFd ≠ Closer.file (w.nextFd + 1) := by
  refine ⟨?_, ?_, ?_, ?_, ?_, by simp⟩
  · unfold Cmd.readerDescriptor
    simp only [osOpenDevNull]
    cases env.osOpen w.nextFd <;> simp
  · unfold Cmd.writerDescriptor
    simp only [osOpenDevNull]
    cases env.osOpen w.nextFd <;> simp
  · intro f h
    have hp := pipeFile_pipe env f h
    refine ⟨?_, ?_⟩
    · unfold Cmd.readerDescriptor
      simp only [hp]
    · unfold Cmd.writerDescriptor
      simp only [hp]
  · intro s hs
    have h := pipeFile_other env s hs
    unfold Cmd.readerDescriptor
    simp only [h, osPipe]
    cases env.osPipe w.nextFd <;> simp
  · intro s hs
    have h := pipeFile_other env s hs
    unfold Cmd.writerDescriptor
    simp only [h, osPipe]
    cases env.osPipe w.nextFd <;> simp

theorem C14_resolver_bookkeeping_witness :
    (Cmd.readerDescriptor Env.piped Cmd.sample { nextFd := 10 } none).c.closeAfterStart
        = [Closer.file 10] ∧
      Env.piped.fileType 5 = (FileType.fileTypePipe, none) ∧
      Cmd.readerDescriptor Env.piped Cmd.sample { nextFd := 10 } (some (Stream.file 5))
        = { c := Cmd.sample, w := { nextFd := 10 }, val := some 5, err := none } ∧
      Cmd.writerDescriptor Env.piped Cmd.sample { nextFd := 10 } (some (Stream.file 5))
        = { c := Cmd.sample, w := { nextFd := 10 }, val := some 5, err := none } ∧
      Env.piped.fileType 6 ≠ (FileType.fileTypePipe, none) ∧
      (Cmd.readerDescriptor Env.piped Cmd.sample { nextFd := 10 } (some (Stream.file 6))).c.goroutine
        = [CopyTask.toProcess (Stream.file 6) 11] ∧
      (Cmd.writerDescriptor Env.piped Cmd.sample { nextFd := 10 }
          (some (Stream.buffer 9))).c.closeAfterWait
        = [Closer.file 10] ∧
      (Cmd.writerDescriptor Env.piped Cmd.sample { nextFd := 10 }
          (some (Stream.buffer 9))).c.goroutine
        = [CopyTask.fromProcess (Stream.buffer 9) 10] :=
  ⟨congrArg (fun r => r.c.closeAfterStart)
      ((C14_resolver_bookkeeping Env.piped Cmd.sample { nextFd := 10 }).1 rfl),
    rfl,
    ((C14_resolver_bookkeeping Env.piped Cmd.sample { nextFd := 10 }).2.2.1 5 rfl).1,
    ((C14_resolver_bookkeeping Env.piped Cmd.sample { nextFd := 10 }).2.2.1 5 rfl).2,
    by decide,
    congrArg (fun r => r.c.goroutine)
      ((C14_resolver_bookkeeping Env.piped Cmd.sample { nextFd := 10 }).2.2.2.1 (Stream.file 6)
        (fun f hf => by cases hf; decide) rfl),
    congrArg (fun r => r.c.closeAfterWait)
      ((C14_resolver_bookkeeping Env.piped Cmd.sample { nextFd := 10 }).2.2.2.2.1
        (Stream.buffer 9) (fun f hf => by cases hf) rfl),
    congrArg (fun r => r.c.goroutine)
      ((C14_resolver_bookkeeping Env.piped Cmd.sample { nextFd := 10 }).2.2.2.2.1
        (Stream.buffer 9) (fun f hf => by cases hf) rfl)⟩

/-! ## Release of descriptors -/

/-- A command as `Command` returns it tracks nothing, in any world. -/
theorem Command_Tracked (d : Distro) (x : Ctx) (cmd : String) (c : Cmd) (w : World)
    (h : d.Command (some x) cmd = .ok c) : c.Tracked w := by
  simp only [Distro.Command, Except.ok.injEq] at h
  subst h
  constructor <;> simp

theorem Tracked_append_one (c : Cmd) (w : World) (h : c.Tracked w) (k : Nat) (hk : 1 ≤ k) :
    Cmd.Tracked { c with closeAfterStart := c.closeAfterStart ++ [Closer.file w.nextFd] }
      { w with nextFd := w.nextFd + k, log := w.log ++ [Event.openDevNull w.nextFd true] } ∧
    Cmd.Tracked { c with closeAfterStart := c.closeAfterStart ++ [Closer.file w.nextFd] }
      { w with nextFd := w.nextFd + k, log := w.log ++ [Event.openDevNull w.nextFd false] } := by
  obtain ⟨h1, h2⟩ := h
  have hb : ∀ d ∈ c.closeAfterStart ++ [Closer.file w.nextFd] ++ c.closeAfterWait,
      d.fd < w.nextFd + k := by
    intro d hd
    simp only [List.mem_append, List.mem_singleton] at hd
    rcases hd with (hd | hd) | hd
    · have := h1 d (List.mem_append.mpr (Or.inl hd)); omega
    · subst hd; simp only [Closer.fd]; omega
    · have := h1 d (List.mem_append.mpr (Or.inr hd)); omega
  have hd : ∀ d ∈ c.closeAfterStart ++ [Closer.file w.nextFd], d ∉ c.closeAfterWait := by
    intro d hd hw
    simp only [List.mem_append, List.mem_singleton] at hd
    rcases hd with hd | hd
    · exact h2 d hd hw
    · subst hd
      have := h1 _ (List.mem_append.mpr (Or.inr hw))
      simp only [Closer.fd] at this
      omega
  exact ⟨⟨hb, hd⟩, ⟨hb, hd⟩⟩

/-- Two fresh closers, one appended to each list, keep the lists tracked. -/
theorem Tracked_append_two (c : Cmd) (w : World) (h : c.Tracked w) (a b : Closer)
    (ha : w.nextFd ≤ a.fd ∧ a.fd < w.nextFd + 2) (hb : w.nextFd ≤ b.fd ∧ b.fd < w.nextFd + 2)
    (hab : a ≠ b) (c' : Cmd) (w' : World)
    (hs : c'.closeAfterStart = c.closeAfterStart ++ [a])
    (hw : c'.closeAfterWait = c.closeAfterWait ++ [b])
    (hn : w'.nextFd = w.nextFd + 2) : c'.Tracked w' := by
  obtain ⟨h1, h2⟩ := h
  constructor
  · intro d hd
    rw [hs, hw, hn] at *
    simp only [List.mem_append, List.mem_singleton] at hd
    rcases hd with (hd | hd) | (hd | hd)
    · have := h1 d (List.mem_append.mpr (Or.inl hd)); omega
    · subst hd; omega
    · have := h1 d (List.mem_append.mpr (Or.inr hd)); omega
    · subst hd; omega
  · intro d hd hdw
    rw [hs] at hd
    rw [hw] at hdw
    simp only [List.mem_append, List.mem_singleton] at hd hdw
    rcases hd with hd | hd <;> rcases hdw with hdw | hdw
    · exact h2 d hd hdw
    · subst hdw
      have := h1 _ (List.mem_append.mpr (Or.inl hd)); omega
    · subst hd
      have := h1 _ (List.mem_append.mpr (Or.inr hdw)); omega
    · subst hd
      exact hab hdw

theorem Tracked_of_eq (c c' : Cmd) (w w' : World)
    (hs : c'.closeAfterStart = c.closeAfterStart) (hw : c'.closeAfterWait = c.closeAfterWait)
    (hn : w.nextFd ≤ w'.nextFd) (h : c.Tracked w) : c'.Tracked w' := by
  obtain ⟨h1, h2⟩ := h
  constructor
  · intro d hd
    rw [hs, hw] at hd
    have := h1 d hd
    omega
  · intro d hd
    rw [hs] at hd
    rw [hw]
    exact h2 d hd

theorem readerDescriptor_orderly (env : Env) (c : Cmd) (w : World) (r : Option Stream) :
    (c.Tracked w → (c.readerDescriptor env w r).c.Tracked (c.readerDescriptor env w r).w) ∧
      ∃ evs, (c.readerDescriptor env w r).w.log = w.log ++ evs ∧ ∀ e ∈ evs, e.isClose = false := by
  unfold Cmd.readerDescriptor
  cases r with
  | none =>
    simp only [osOpenDevNull]
    cases env.osOpen w.nextFd with
    | some e => exact ⟨fun h => h, [], by simp, by simp⟩
    | none =>
      exact ⟨fun h => (Tracked_append_one c w h 1 (le_refl 1)).2,
        [Event.openDevNull w.nextFd false], rfl, by simp [Event.isClose]⟩
  | some s =>
    simp only
    cases pipeFile env s with
    | some f => exact ⟨fun h => h, [], by simp, by simp⟩
    | none =>
      simp only [osPipe]
      cases env.osPipe w.nextFd with
      | some e => exact ⟨fun h => h, [], by simp, by simp⟩
      | none =>
        refine ⟨fun h => ?_, [Event.pipe w.nextFd (w.nextFd + 1)], rfl, by simp [Event.isClose]⟩
        exact Tracked_append_two c w h (Closer.file w.nextFd) (Closer.file (w.nextFd + 1))
          (by simp [Closer.fd]) (by simp [Closer.fd]) (by simp) _ _ rfl rfl rfl

theorem writerDescriptor_orderly (env : Env) (c : Cmd) (w : World) (r : Option Stream) :
    (c.Tracked w → (c.writerDescriptor env w r).c.Tracked (c.writerDescriptor env w r).w) ∧
      ∃ evs, (c.writerDescriptor env w r).w.log = w.log ++ evs ∧ ∀ e ∈ evs, e.isClose = false := by
  unfold Cmd.writerDescriptor
  cases r with
  | none =>
    simp only [osOpenDevNull]
    cases env.osOpen w.nextFd with
    | some e => exact ⟨fun h => h, [], by simp, by simp⟩
    | none =>
      exact ⟨fun h => (Tracked_append_one c w h 1 (le_refl 1)).1,
        [Event.openDevNull w.nextFd true], rfl, by simp [Event.isClose]⟩
  | some s =>
    simp only
    cases pipeFile env s with
    | some f => exact ⟨fun h => h, [], by simp, by simp⟩
    | none =>
      simp only [osPipe]
      cases env.osPipe w.nextFd with
      | some e => exact ⟨fun h => h, [], by simp, by simp⟩
      | none =>
        refine ⟨fun h => ?_, [Event.pipe w.nextFd (w.nextFd + 1)], rfl, by simp [Event.isClose]⟩
        exact Tracked_append_two c w h (Closer.file (w.nextFd + 1)) (Closer.file w.nextFd)
          (by simp [Closer.fd]) (by simp [Closer.fd]) (by simp) _ _ rfl rfl rfl

theorem stdin_orderly (env : Env) : Orderly env Cmd.stdin := by
  intro c w
  obtain ⟨h1, h2⟩ := readerDescriptor_orderly env c w c.Stdin
  unfold Cmd.stdin
  cases he : (c.readerDescriptor env w c.Stdin).err with
  | none =>
    simp only [he]
    exact ⟨fun h => Tracked_of_eq (c.readerDescriptor env w c.Stdin).c _ (c.readerDescriptor env w c.Stdin).w _
      rfl rfl (le_refl _) (h1 h), h2⟩
  | some e =>
    simp only [he]
    exact ⟨h1, h2⟩

theorem stdout_orderly (env : Env) : Orderly env Cmd.stdout := by
  intro c w
  obtain ⟨h1, h2⟩ := writerDescriptor_orderly env c w c.Stdout
  unfold Cmd.stdout
  cases he : (c.writerDescriptor env w c.Stdout).err with
  | none =>
    simp only [he]
    exact ⟨fun h => Tracked_of_eq (c.writerDescriptor env w c.Stdout).c _ (c.writerDescriptor env w c.Stdout).w _
      rfl rfl (le_refl _) (h1 h), h2⟩
  | some e =>
    simp only [he]
    exact ⟨h1, h2⟩

theorem stderr_orderly (env : Env) : Orderly env Cmd.stderr := by
  intro c w
  obtain ⟨h1, h2⟩ := writerDescriptor_orderly env c w c.Stderr
  unfold Cmd.stderr
  by_cases hsame : (c.Stderr.isSome && interfaceEqual c.Stdout c.Stderr) = true
  · simp only [hsame, if_true]
    exact ⟨fun h => Tracked_of_eq c _ w _ rfl rfl (le_refl _) h, [], by simp, by simp⟩
  · simp only [hsame]
    cases he : (c.writerDescriptor env w c.Stderr).err with
    | none =>
      simp only [he]
      exact ⟨fun h => Tracked_of_eq (c.writerDescriptor env w c.Stderr).c _
        (c.writerDescriptor env w c.Stderr).w _ rfl rfl (le_refl _) (h1 h), h2⟩
    | some e =>
      simp only [he]
      exact ⟨h1, h2⟩

/-- A set-up loop of orderly steps that ends without error is orderly. -/
theorem setupFds_orderly (env : Env) (fs : List (Env → Cmd → World → Outcome Unit))
    (hfs : ∀ f ∈ fs, Orderly env f) :
    ∀ (c : Cmd) (w : World), (Cmd.setupFds env fs c w).err = none →
      (c.Tracked w → (Cmd.setupFds env fs c w).c.Tracked (Cmd.setupFds env fs c w).w) ∧
        ∃ evs, (Cmd.setupFds env fs c w).w.log = w.log ++ evs ∧ ∀ e ∈ evs, e.isClose = false := by
  induction fs with
  | nil =>
    intro c w _
    exact ⟨fun h => h, [], by simp [Cmd.setupFds], by simp⟩
  | cons f fs ih =>
    intro c w h
    rw [Cmd.setupFds] at h ⊢
    obtain ⟨hf1, evs1, hf2, hf3⟩ := hfs f (List.mem_cons_self _ _) c w
    cases he : (f env c w).err with
    | some e => simp [he] at h
    | none =>
      simp only [he] at h ⊢
      obtain ⟨ih1, evs2, ih2, ih3⟩ :=
        ih (fun g hg => hfs g (List.mem_cons_of_mem _ hg)) (f env c w).c (f env c w).w h
      refine ⟨fun ht => ih1 (hf1 ht), evs1 ++ evs2, ?_, ?_⟩
      · rw [ih2, hf2, List.append_assoc]
      · intro e he'
        rcases List.mem_append.mp he' with h' | h'
        · exact hf3 e h'
        · exact ih3 e h'

theorem wire_orderly (env : Env) (c : Cmd) (w : World) (h : (c.wire env w).err = none) :
    (c.Tracked w → (c.wire env w).c.Tracked (c.wire env w).w) ∧
      ∃ evs, (c.wire env w).w.log = w.log ++ evs ∧ ∀ e ∈ evs, e.isClose = false := by
  refine setupFds_orderly env _ ?_ c w h
  intro f hf
  simp only [List.mem_cons, List.mem_singleton, List.not_mem_nil, or_false] at hf
  rcases hf with rfl | rfl | rfl
  · exact stdin_orderly env
  · exact stdout_orderly env
  · exact stderr_orderly env

/-- What a `Start` that returns no error has done after its stream wiring: the launch,
then `Close` on the release-after-start list, then the spawning of goroutines. -/
theorem Start_ok_shape (env : Env) (c : Cmd) (w : World) (h : (c.Start env w).err = none) :
    (c.wire env w).err = none ∧
      ∃ launch post,
        (c.Start env w).w.log =
          (c.wire env w).w.log ++ [launch]
            ++ (c.wire env w).c.closeAfterStart.map Event.close ++ post ∧
        launch.isLaunch = true ∧ (∀ e ∈ post, e.isClose = false) ∧
        (c.Start env w).c.closeAfterStart = (c.wire env w).c.closeAfterStart ∧
        (c.Start env w).c.closeAfterWait = (c.wire env w).c.closeAfterWait ∧
        (c.Start env w).w.nextFd = (c.wire env w).w.nextFd := by
  unfold Cmd.Start at h ⊢
  rcases hreg : env.isRegistered with ⟨b, e⟩
  rw [hreg] at h
  cases e with
  | some e => simp at h
  | none =>
    cases b with
    | false => simp at h
    | true =>
      simp only at h ⊢
      by_cases hp : c.Process.isSome = true
      · simp [hp] at h
      · simp only [hp] at h ⊢
        by_cases hd : (c.ctx.isSome && env.ctxDone) = true
        · simp [hd] at h
        · simp only [hd] at h ⊢
          cases hw : (Cmd.wire env c w).err with
          | some e => simp [hw] at h
          | none =>
            simp only [hw] at h ⊢
            cases hs : env.startProcess with
            | error e => simp [hs] at h
            | ok p =>
              simp only [hs]
              refine ⟨trivial,
                Event.startProcess (Cmd.wire env c w).c.distro (Cmd.wire env c w).c.command
                  (Cmd.wire env c w).c.UseCWD (Cmd.wire env c w).c.stdinR
                  (Cmd.wire env c w).c.stdoutW (Cmd.wire env c w).c.stderrW,
                (if (Cmd.wire env c w).c.goroutine.length > 0 then
                    (Cmd.wire env c w).c.goroutine.map Event.goCopy else [])
                  ++ (match (Cmd.wire env c w).c.ctx with
                      | some x => [Event.goWatcher x]
                      | none => []), ?_, rfl, ?_, ?_, ?_, ?_⟩
              · by_cases hg : (Cmd.wire env c w).c.goroutine.length > 0 <;>
                  cases hc : (Cmd.wire env c w).c.ctx <;>
                  simp [hg, hc, Cmd.closeDescriptors, List.append_assoc]
              · intro e he
                by_cases hg : (Cmd.wire env c w).c.goroutine.length > 0 <;>
                  cases hc : (Cmd.wire env c w).c.ctx <;>
                  simp [hg, hc] at he <;>
                  first
                    | (rcases he with ⟨t, -, rfl⟩ | rfl <;> rfl)
                    | (obtain ⟨t, -, rfl⟩ := he; rfl)
                    | (subst he; rfl)
              · by_cases hg : (Cmd.wire env c w).c.goroutine.length > 0 <;>
                  cases hc : (Cmd.wire env c w).c.ctx <;> simp [hg, hc]
              · by_cases hg : (Cmd.wire env c w).c.goroutine.length > 0 <;>
                  cases hc : (Cmd.wire env c w).c.ctx <;> simp [hg, hc]
              · by_cases hg : (Cmd.wire env c w).c.goroutine.length > 0 <;>
                  cases hc : (Cmd.wire env c w).c.ctx <;>
                  simp [hg, hc, Cmd.closeDescriptors]

/-- What a `Wait` that passes its guards does to the outside: it waits on the process,
lets the watcher know, and at the end calls `Close` on the release-after-wait list. -/
theorem Wait_shape (env : Env) (c : Cmd) (w : World) (p : Process)
    (hp : c.Process = some p) (hf : c.finished = false) :
    (c.Wait env w).c.closeAfterWait = c.closeAfterWait ∧
      ∃ pre, (c.Wait env w).w.log = w.log ++ pre ++ c.closeAfterWait.map Event.close ∧
        ∀ e ∈ pre, e.isClose = false := by
  unfold Cmd.Wait
  simp only [hp, hf]
  by_cases hfire : (c.waitDone.isSome && env.watcherFires) = true
  · simp only [hfire, if_true, Cmd.watcher, hp]
    cases hwd : c.waitDone with
    | none => simp [hwd] at hfire
    | some b =>
      refine ⟨?_, [Event.processWait p, Event.kill p, Event.closeWaitDone], ?_, ?_⟩
      · cases hpw : env.processWait <;> simp <;> split <;> simp
      · cases hpw : env.processWait <;> simp [Cmd.closeDescriptors] <;> split <;> simp
      · simp [Event.isClose]
  · simp only [hfire]
    cases hwd : c.waitDone with
    | none =>
      refine ⟨?_, [Event.processWait p], ?_, ?_⟩
      · cases hce : c.ctxErr <;> cases hpw : env.processWait <;> simp <;> split <;> simp
      · cases hce : c.ctxErr <;> cases hpw : env.processWait <;>
          simp [Cmd.closeDescriptors] <;> split <;> simp
      · simp [Event.isClose]
    | some b =>
      refine ⟨?_, [Event.processWait p, Event.closeWaitDone], ?_, ?_⟩
      · cases hce : c.ctxErr <;> cases hpw : env.processWait <;> simp <;> split <;> simp
      · cases hce : c.ctxErr <;> cases hpw : env.processWait <;>
          simp [Cmd.closeDescriptors] <;> split <;> simp
      · simp [Event.isClose]

/-- C15: on a command whose closer lists are tracked (as `Command`, the pipe accessors
and the resolvers build them), a successful `Start` calls `Close` on every descriptor
of the release-after-start list, does so after the launch primitive has returned (no
`Close` comes before the launch), and calls `Close` on no descriptor of the
release-after-wait list; a `Wait` that passes its guards calls `Close` on every
descriptor of the release-after-wait list before it returns, whatever error it
returns. -/
theorem C15_release_ordering (env : Env) (c : Cmd) (w : World) (p : Process)
    (htr : c.Tracked w) :
    ((c.Start env w).err = none →
        ∃ pre launch post,
          (c.Start env w).w.log =
            w.log ++ pre ++ [launch]
              ++ (c.Start env w).c.closeAfterStart.map Event.close ++ post ∧
          launch.isLaunch = true ∧
          (∀ e ∈ pre ++ post, e.isClose = false) ∧
          (∀ d ∈ (c.Start env w).c.closeAfterStart, (c.Start env w).w.closed d) ∧
          (∀ d ∈ (c.Start env w).c.closeAfterWait,
            Event.close d ∉ pre ++ [launch]
              ++ (c.Start env w).c.closeAfterStart.map Event.close ++ post)) ∧
      (c.Process = some p → c.finished = false →
        ∃ pre, (c.Wait env w).w.log = w.log ++ pre ++ c.closeAfterWait.map Event.close ∧
          (c.Wait env w).c.closeAfterWait = c.closeAfterWait ∧
          ∀ d ∈ (c.Wait env w).c.closeAfterWait, (c.Wait env w).w.closed d) := by
  constructor
  · intro hok
    obtain ⟨hw, launch, post, hlog, hl, hpost, hcs, hcw, -⟩ := Start_ok_shape env c w hok
    obtain ⟨htr', pre, hpre, hnc⟩ := wire_orderly env c w hw
    have hdis := (htr' htr).2
    refine ⟨pre, launch, post, ?_, hl, ?_, ?_, ?_⟩
    · rw [hlog, hpre, hcs]
    · intro e he
      rcases List.mem_append.mp he with h | h
      · exact hnc e h
      · exact hpost e h
    · intro d hd
      simp only [World.closed, hlog, hcs] at hd ⊢
      simp only [List.mem_append, List.mem_map]
      exact Or.inl (Or.inr ⟨d, hd, rfl⟩)
    · intro d hd hmem
      rw [hcs] at hmem
      rw [hcw] at hd
      simp only [List.mem_append, List.mem_map, List.mem_singleton] at hmem
      rcases hmem with ((h | h) | h) | h
      · have := hnc _ h
        simp [Event.isClose] at this
      · rw [← h] at hl
        simp [Event.isLaunch] at hl
      · obtain ⟨d', hd', heq⟩ := h
        simp only [Event.close.injEq] at heq
        subst heq
        exact hdis d' hd' hd
      · have := hpost _ h
        simp [Event.isClose] at this
  · intro hp hf
    obtain ⟨hcw, pre, hlog, -⟩ := Wait_shape env c w p hp hf
    refine ⟨pre, hlog, hcw, ?_⟩
    intro d hd
    rw [hcw] at hd
    simp only [World.closed, hlog, List.mem_append, List.mem_map]
    exact Or.inr ⟨d, hd, rfl⟩

theorem C15_release_ordering_witness :
    (Cmd.sample.StdoutPipe Env.calm {}).c.Tracked (Cmd.sample.StdoutPipe Env.calm {}).w ∧
      ((Cmd.sample.StdoutPipe Env.calm {}).c.Start Env.calm
          (Cmd.sample.StdoutPipe Env.calm {}).w).err = none ∧
      ∃ pre launch post,
        ((Cmd.sample.StdoutPipe Env.calm {}).c.Start Env.calm
            (Cmd.sample.StdoutPipe Env.calm {}).w).w.log =
          (Cmd.sample.StdoutPipe Env.calm {}).w.log ++ pre ++ [launch]
            ++ ((Cmd.sample.StdoutPipe Env.calm {}).c.Start Env.calm
                (Cmd.sample.StdoutPipe Env.calm {}).w).c.closeAfterStart.map Event.close
            ++ post ∧
        launch.isLaunch = true ∧
        (∀ e ∈ pre ++ post, e.isClose = false) ∧
        (∀ d ∈ ((Cmd.sample.StdoutPipe Env.calm {}).c.Start Env.calm
            (Cmd.sample.StdoutPipe Env.calm {}).w).c.closeAfterStart,
          ((Cmd.sample.StdoutPipe Env.calm {}).c.Start Env.calm
            (Cmd.sample.StdoutPipe Env.calm {}).w).w.closed d) ∧
        (∀ d ∈ ((Cmd.sample.StdoutPipe Env.calm {}).c.Start Env.calm
            (Cmd.sample.StdoutPipe Env.calm {}).w).c.closeAfterWait,
          Event.close d ∉ pre ++ [launch]
            ++ ((Cmd.sample.StdoutPipe Env.calm {}).c.Start Env.calm
                (Cmd.sample.StdoutPipe Env.calm {}).w).c.closeAfterStart.map Event.close
            ++ post) :=
  ⟨by decide, rfl,
    (C15_release_ordering Env.calm (Cmd.sample.StdoutPipe Env.calm {}).c
      (Cmd.sample.StdoutPipe Env.calm {}).w { Pid := 100 } (by decide)).1 rfl⟩

/-- The pipe accessors keep the closer lists tracked. -/
theorem pipe_accessors_Tracked (env : Env) (c : Cmd) (w : World) (h : c.Tracked w) :
    (c.StdinPipe env w).c.Tracked (c.StdinPipe env w).w ∧
      (c.StdoutPipe env w).c.Tracked (c.StdoutPipe env w).w ∧
      (c.StderrPipe env w).c.Tracked (c.StderrPipe env w).w := by
  refine ⟨?_, ?_, ?_⟩
  · unfold Cmd.StdinPipe
    split
    · exact h
    · split
      · exact h
      · simp only [osPipe]
        cases env.osPipe w.nextFd with
        | some e => exact h
        | none =>
          exact Tracked_append_two c w h (Closer.file w.nextFd) (Closer.closeOnce (w.nextFd + 1))
            (by simp [Closer.fd]) (by simp [Closer.fd]) (by simp) _ _ rfl rfl rfl
  · unfold Cmd.StdoutPipe
    split
    · exact h
    · split
      · exact h
      · simp only [osPipe]
        cases env.osPipe w.nextFd with
        | some e => exact h
        | none =>
          exact Tracked_append_two c w h (Closer.file (w.nextFd + 1)) (Closer.file w.nextFd)
            (by simp [Closer.fd]) (by simp [Closer.fd]) (by simp) _ _ rfl rfl rfl
  · unfold Cmd.StderrPipe
    split
    · exact h
    · split
      · exact h
      · simp only [osPipe]
        cases env.osPipe w.nextFd with
        | some e => exact h
        | none =>
          exact Tracked_append_two c w h (Closer.file (w.nextFd + 1)) (Closer.file w.nextFd)
            (by simp [Closer.fd]) (by simp [Closer.fd]) (by simp) _ _ rfl rfl rfl

/-- A set-up loop of orderly steps keeps the closer lists tracked, also when it fails. -/
theorem setupFds_Tracked (env : Env) (fs : List (Env → Cmd → World → Outcome Unit))
    (hfs : ∀ f ∈ fs, Orderly env f) :
    ∀ (c : Cmd) (w : World), c.Tracked w →
      (Cmd.setupFds env fs c w).c.Tracked (Cmd.setupFds env fs c w).w := by
  induction fs with
  | nil =>
    intro c w h
    exact h
  | cons f fs ih =>
    intro c w h
    rw [Cmd.setupFds]
    have hf := (hfs f (List.mem_cons_self _ _) c w).1 h
    cases he : (f env c w).err with
    | some e =>
      simp only [he]
      exact Tracked_of_eq (f env c w).c _ (f env c w).w _ rfl rfl (le_refl _) hf
    | none =>
      simp only [he]
      exact ih (fun g hg => hfs g (List.mem_cons_of_mem _ hg)) _ _ hf

theorem Wait_frame_lists (env : Env) (c : Cmd) (w : World) :
    (c.Wait env w).c.closeAfterStart = c.closeAfterStart ∧
      (c.Wait env w).c.closeAfterWait = c.closeAfterWait ∧
      (c.Wait env w).w.nextFd = w.nextFd := by
  unfold Cmd.Wait
  cases hp : c.Process with
  | none => simp
  | some p =>
    by_cases hf : c.finished = true
    · simp [hf]
    · simp only [hf]
      by_cases hfire : (c.waitDone.isSome && env.watcherFires) = true
      · simp only [hfire, if_true, Cmd.watcher, hp]
        cases hwd : c.waitDone <;> cases hpw : env.processWait <;>
          simp [Cmd.closeDescriptors]
      · simp only [hfire]
        cases hwd : c.waitDone <;> cases hce : c.ctxErr <;> cases hpw : env.processWait <;>
          simp [Cmd.closeDescriptors] <;> split <;> simp

/-- `Start` and `Wait` keep the closer lists tracked. -/
theorem Start_Wait_Tracked (env : Env) (c : Cmd) (w : World) (h : c.Tracked w) :
    (c.Start env w).c.Tracked (c.Start env w).w ∧
      (c.Wait env w).c.Tracked (c.Wait env w).w := by
  constructor
  · have hwire : (c.wire env w).c.Tracked (c.wire env w).w := by
      refine setupFds_Tracked env _ ?_ c w h
      intro f hf
      simp only [List.mem_cons, List.mem_singleton, List.not_mem_nil, or_false] at hf
      rcases hf with rfl | rfl | rfl
      · exact stdin_orderly env
      · exact stdout_orderly env
      · exact stderr_orderly env
    unfold Cmd.Start
    split
    · exact h
    · exact h
    · split
      · exact h
      · split
        · exact Tracked_of_eq c _ w _ rfl rfl (le_refl _) h
        · simp only
          split
          · exact hwire
          · split
            · exact Tracked_of_eq (c.wire env w).c _ (c.wire env w).w _ rfl rfl (le_refl _) hwire
            · refine Tracked_of_eq (c.wire env w).c _ (c.wire env w).w _ ?_ ?_ ?_ hwire
              · split <;> split <;> rfl
              · split <;> split <;> rfl
              · split <;> split <;> simp [Cmd.closeDescriptors]
  · obtain ⟨h1, h2, h3⟩ := Wait_frame_lists env c w
    exact Tracked_of_eq c _ w _ h1 h2 (by omega) h

/-! ## Output -/

theorem SameStreams.refl (c : Cmd) : SameStreams c c :=
  ⟨rfl, rfl, rfl⟩

theorem SameStreams.trans (a b c : Cmd) (h1 : SameStreams a b) (h2 : SameStreams b c) :
    SameStreams a c :=
  ⟨h2.1.trans h1.1, h2.2.1.trans h1.2.1, h2.2.2.trans h1.2.2⟩

theorem readerDescriptor_streams (env : Env) (c : Cmd) (w : World) (r : Option Stream) :
    SameStreams c (c.readerDescriptor env w r).c := by
  unfold Cmd.readerDescriptor
  cases r with
  | none =>
    simp only [osOpenDevNull]
    cases env.osOpen w.nextFd <;> exact ⟨rfl, rfl, rfl⟩
  | some s =>
    simp only
    cases pipeFile env s with
    | some f => exact ⟨rfl, rfl, rfl⟩
    | none =>
      simp only [osPipe]
      cases env.osPipe w.nextFd <;> exact ⟨rfl, rfl, rfl⟩

theorem writerDescriptor_streams (env : Env) (c : Cmd) (w : World) (r : Option Stream) :
    SameStreams c (c.writerDescriptor env w r).c := by
  unfold Cmd.writerDescriptor
  cases r with
  | none =>
    simp only [osOpenDevNull]
    cases env.osOpen w.nextFd <;> exact ⟨rfl, rfl, rfl⟩
  | some s =>
    simp only
    cases pipeFile env s with
    | some f => exact ⟨rfl, rfl, rfl⟩
    | none =>
      simp only [osPipe]
      cases env.osPipe w.nextFd <;> exact ⟨rfl, rfl, rfl⟩

theorem setup_steps_streams (env : Env) (c : Cmd) (w : World) :
    SameStreams c (c.stdin env w).c ∧ SameStreams c (c.stdout env w).c ∧
      SameStreams c (c.stderr env w).c := by
  refine ⟨?_, ?_, ?_⟩
  · have h := readerDescriptor_streams env c w c.Stdin
    unfold Cmd.stdin
    cases he : (c.readerDescriptor env w c.Stdin).err <;> simp only [he] <;> exact h
  · have h := writerDescriptor_streams env c w c.Stdout
    unfold Cmd.stdout
    cases he : (c.writerDescriptor env w c.Stdout).err <;> simp only [he] <;> exact h
  · have h := writerDescriptor_streams env c w c.Stderr
    unfold Cmd.stderr
    split
    · exact ⟨rfl, rfl, rfl⟩
    · cases he : (c.writerDescriptor env w c.Stderr).err <;> simp only [he] <;> exact h

theorem setupFds_streams (env : Env) (fs : List (Env → Cmd → World → Outcome Unit))
    (hfs : ∀ f ∈ fs, ∀ c w, SameStreams c (f env c w).c) :
    ∀ (c : Cmd) (w : World), SameStreams c (Cmd.setupFds env fs c w).c := by
  induction fs with
  | nil =>
    intro c w
    exact SameStreams.refl c
  | cons f fs ih =>
    intro c w
    rw [Cmd.setupFds]
    have hf := hfs f (List.mem_cons_self _ _) c w
    cases he : (f env c w).err with
    | some e =>
      simp only [he]
      exact hf
    | none =>
      simp only [he]
      exact SameStreams.trans _ _ _ hf (ih (fun g hg => hfs g (List.mem_cons_of_mem _ hg)) _ _)

theorem wire_streams (env : Env) (c : Cmd) (w : World) : SameStreams c (c.wire env w).c := by
  refine setupFds_streams env _ ?_ c w
  intro f hf c' w'
  simp only [List.mem_cons, List.mem_singleton, List.not_mem_nil, or_false] at hf
  rcases hf with rfl | rfl | rfl
  · exact (setup_steps_streams env c' w').1
  · exact (setup_steps_streams env c' w').2.1
  · exact (setup_steps_streams env c' w').2.2

/-- `Start`, `Wait` and `Run` leave `Stdin`, `Stdout` and `Stderr` as the caller set them. -/
theorem Run_streams (envS envW : Env) (c : Cmd) (w : World) :
    SameStreams c (c.Start envS w).c ∧ SameStreams c (c.Wait envW w).c ∧
      SameStreams c (c.Run envS envW w).c := by
  have hS : ∀ (c : Cmd) (w : World), SameStreams c (c.Start envS w).c := by
    intro c w
    have hwire := wire_streams envS c w
    unfold Cmd.Start
    split
    · exact SameStreams.refl c
    · exact SameStreams.refl c
    · split
      · exact SameStreams.refl c
      · split
        · exact SameStreams.refl c
        · simp only
          split
          · exact hwire
          · split
            · exact hwire
            · refine SameStreams.trans _ _ _ hwire ⟨?_, ?_, ?_⟩ <;> split <;> split <;> rfl
  have hW : ∀ (c : Cmd) (w : World), SameStreams c (c.Wait envW w).c := by
    intro c w
    unfold Cmd.Wait
    cases hp : c.Process with
    | none => exact SameStreams.refl c
    | some p =>
      by_cases hf : c.finished = true
      · simp only [hf, if_true]
        exact SameStreams.refl c
      · simp only [hf]
        by_cases hfire : (c.waitDone.isSome && envW.watcherFires) = true
        · simp only [hfire, if_true, Cmd.watcher, hp]
          cases hwd : c.waitDone <;> cases hpw : envW.processWait <;>
            simp [SameStreams]
        · simp only [hfire]
          cases hwd : c.waitDone <;> cases hce : c.ctxErr <;> cases hpw : envW.processWait <;>
            simp [SameStreams] <;> split <;> simp
  refine ⟨hS c w, hW c w, ?_⟩
  unfold Cmd.Run
  cases he : (c.Start envS w).err with
  | some e =>
    simp only [he]
    exact hS c w
  | none =>
    simp only [he]
    exact SameStreams.trans _ _ _ (hS c w) (hW _ _)

/-- The saver of `Output`, of capacity 32768, returns its bytes whatever was written. -/
theorem saverBytes_ok (fuel : Nat) (hfuel : 2 ≤ fuel) (ps : List (List Byte)) :
    ∃ sv b, prefixSuffixSaver.writes fuel { N := 32 <<< 10 } ps = .ok sv ∧ sv.Bytes = .ok b ∧
      saverBytes fuel 32768 ps = .ok b := by
  have e : ((32 <<< 10 : Int)) = 32768 := by decide
  rw [e]
  obtain ⟨sv, hsv, hinv⟩ := writes_fresh 32768 fuel ps (by decide) hfuel
  obtain ⟨b, hb, -⟩ := Bytes_spec _ _ _ hinv
  exact ⟨sv, b, hsv, hb, by simp only [saverBytes, hsv, hb, bind, Except.bind]⟩

/-- C11: `Output` called with `Stdout` unset installs a bounded buffer of capacity 32768
on `Stderr` if and only if the caller left `Stderr` nil. When it did so and `Run`
returns an `*exec.ExitError`, the `Stderr` field of that error is set to the `Bytes()` of
the buffer; when the caller supplied `Stderr`, that writer is left in place and the
error of `Run` is passed through unmodified. In every case `Output` returns, the bytes
returned are the contents of the stdout capture buffer, and the error returned is the
error of `Run`. -/
theorem C11_output_capture (fuel : Nat) (envS envW : Env) (c : Cmd) (w : World)
    (hfuel : 2 ≤ fuel) (hout : c.Stdout = none) :
    (c.Stderr = none →
        ∃ b,
          saverBytes fuel 32768
              (written envW
                (Cmd.Run envS envW
                  { c with Stdout := some (Stream.buffer w.nextObj),
                           Stderr := some (Stream.saver (w.nextObj + 1)) }
                  { w with nextObj := w.nextObj + 1 + 1 }).w
                (Stream.saver (w.nextObj + 1))) = .ok b ∧
          c.Output fuel envS envW w =
            .ok { c := (Cmd.Run envS envW
                    { c with Stdout := some (Stream.buffer w.nextObj),
                             Stderr := some (Stream.saver (w.nextObj + 1)) }
                    { w with nextObj := w.nextObj + 1 + 1 }).c,
                  w := (Cmd.Run envS envW
                    { c with Stdout := some (Stream.buffer w.nextObj),
                             Stderr := some (Stream.saver (w.nextObj + 1)) }
                    { w with nextObj := w.nextObj + 1 + 1 }).w,
                  val := bufferBytes (written envW
                    (Cmd.Run envS envW
                      { c with Stdout := some (Stream.buffer w.nextObj),
                               Stderr := some (Stream.saver (w.nextObj + 1)) }
                      { w with nextObj := w.nextObj + 1 + 1 }).w
                    (Stream.buffer w.nextObj)),
                  err :=
                    match (Cmd.Run envS envW
                      { c with Stdout := some (Stream.buffer w.nextObj),
                               Stderr := some (Stream.saver (w.nextObj + 1)) }
                      { w with nextObj := w.nextObj + 1 + 1 }).err with
                    | some (Error.exitError st _) => some (Error.exitError st b)
                    | e => e } ∧
          (Cmd.Run envS envW
              { c with Stdout := some (Stream.buffer w.nextObj),
                       Stderr := some (Stream.saver (w.nextObj + 1)) }
              { w with nextObj := w.nextObj + 1 + 1 }).c.Stderr
            = some (Stream.saver (w.nextObj + 1))) ∧
      (∀ s, c.Stderr = some s →
        c.Output fuel envS envW w =
            .ok { c := (Cmd.Run envS envW { c with Stdout := some (Stream.buffer w.nextObj) }
                    { w with nextObj := w.nextObj + 1 }).c,
                  w := (Cmd.Run envS envW { c with Stdout := some (Stream.buffer w.nextObj) }
                    { w with nextObj := w.nextObj + 1 }).w,
                  val := bufferBytes (written envW
                    (Cmd.Run envS envW { c with Stdout := some (Stream.buffer w.nextObj) }
                      { w with nextObj := w.nextObj + 1 }).w
                    (Stream.buffer w.nextObj)),
                  err := (Cmd.Run envS envW { c with Stdout := some (Stream.buffer w.nextObj) }
                    { w with nextObj := w.nextObj + 1 }).err } ∧
          (Cmd.Run envS envW { c with Stdout := some (Stream.buffer w.nextObj) }
              { w with nextObj := w.nextObj + 1 }).c.Stderr = some s) := by
  constructor
  · intro herr
    obtain ⟨sv, b, hsv, hb, hsb⟩ := saverBytes_ok fuel hfuel
      (written envW
        (Cmd.Run envS envW
          { c with Stdout := some (Stream.buffer w.nextObj),
                   Stderr := some (Stream.saver (w.nextObj + 1)) }
          { w with nextObj := w.nextObj + 1 + 1 }).w
        (Stream.saver (w.nextObj + 1)))
    refine ⟨b, hsb, ?_, ?_⟩
    · unfold Cmd.Output
      simp only [hout, herr, Option.isSome_none, Bool.false_eq_true, if_false,
        Option.isNone_none, if_true]
      generalize hr : Cmd.Run envS envW _ _ = r at hsv hb ⊢
      cases hre : r.err with
      | none => rfl
      | some e =>
        cases e with
        | errorsNew m => rfl
        | external k => rfl
        | exitError st x =>
          simp only [hsv, hb, bind, Except.bind, pure, Except.pure]
    · exact ((Run_streams envS envW _ _).2.2).2.2
  · intro s herr
    refine ⟨?_, ?_⟩
    · unfold Cmd.Output
      simp only [hout, herr, Option.isSome_none, Bool.false_eq_true, if_false,
        Option.isNone_some]
      generalize hr : Cmd.Run envS envW _ _ = r
      cases hre : r.err with
      | none => rfl
      | some e => cases e <;> rfl
    · have := ((Run_streams envS envW { c with Stdout := some (Stream.buffer w.nextObj) }
        { w with nextObj := w.nextObj + 1 }).2.2).2.2
      rw [this]
      exact herr

theorem C11_output_capture_witness :
    2 ≤ 2 ∧ Cmd.sample.Stdout = none ∧ Cmd.sample.Stderr = none ∧
      ∃ b, saverBytes 2 32768 [[111, 111], [112, 115]] = .ok b ∧
        (Cmd.sample.Output 2 Env.calm Env.exit42 {}).map (fun r => (r.val, r.err)) =
          .ok (Slice.mk [104, 105],
            some (Error.exitError { pid := 100, exitCode := 42 } b)) := by
  refine ⟨by decide, rfl, rfl, ?_⟩
  obtain ⟨b, hb, ho, -⟩ := (C11_output_capture 2 Env.calm Env.exit42 Cmd.sample {}
    (by decide) rfl).1 rfl
  exact ⟨b, hb, by rw [ho]; rfl⟩

end GoWSL
